import Mathlib

/-!
# Spin-Watcher backend: verified model

A shallow embedding in Lean 4 of the data-integrity core of the spin-watcher
repository: the signed bearer-token session layer, the schema migrator, the
paginated catalog-sync pipeline and the play-event ledger, together with
theorems settling the specification's testable properties.

Strings of the JavaScript source are modelled as Lean `String`s (lists of
Unicode scalar values); SQL timestamps (`CURRENT_TIMESTAMP`, `Date.now()`)
are modelled as `Nat` values passed in explicitly; database tables are
modelled as lists of row structures in insertion order, and each SQL
statement as an explicit function on those lists.
-/

namespace SpinWatcher

/-! ## JSON string serialization

`JSON.stringify` applied to strings and string arrays, as used by the sync
normalizer (`genres`/`styles` are stored as JSON text) and by the bearer-token
payload.  `JSON.stringify` escapes `"` and `\`, uses the two-character escapes
for backspace, tab, newline, form feed and carriage return, and `\u00XX`
(lower-case hex) for the remaining control characters below U+0020. -/

def toHexDigit (n : Nat) : Char :=
  if n < 10 then Char.ofNat (48 + n) else Char.ofNat (87 + n)

def jsonEscapeChar (c : Char) : List Char :=
  if c = '"' then ['\\', '"']
  else if c = '\\' then ['\\', '\\']
  else if c.toNat < 32 then
    if c.toNat = 8 then ['\\', 'b']
    else if c.toNat = 9 then ['\\', 't']
    else if c.toNat = 10 then ['\\', 'n']
    else if c.toNat = 12 then ['\\', 'f']
    else if c.toNat = 13 then ['\\', 'r']
    else ['\\', 'u', '0', '0', toHexDigit (c.toNat / 16), toHexDigit (c.toNat % 16)]
  else [c]

/-- A JSON string literal: opening quote, escaped content, closing quote. -/
def jsonQuote (s : List Char) : List Char :=
  '"' :: (s.flatMap jsonEscapeChar ++ ['"'])

/-- `JSON.stringify` of an array of strings (e.g. `["Rock","Pop"]`). -/
def jsonStringifyStrings : List String → String
  | [] => "[]"
  | x :: xs =>
    ⟨'[' :: (jsonQuote x.data ++ xs.flatMap (fun s => ',' :: jsonQuote s.data) ++ [']'])⟩

/-! ## Data model: the `records` and `plays` tables

Current multi-tenant schema created by `/api/init` (`src/app/api/init/route.ts`):
`records(id, username, discogs_id, title, artist, cover_url, added_at, genres,
styles, year, label, format)` with `UNIQUE(username, discogs_id)`, and
`plays(id, username, discogs_id, played_at)`.  The autoincrement `id` is
implicit in the list position and not modelled as a field. -/

structure RecordRow where
  username   : String
  discogs_id : String
  title      : String
  artist     : String
  cover_url  : String
  added_at   : Nat
  genres     : String
  styles     : String
  year       : Option Int
  label      : Option String
  format     : Option String
deriving DecidableEq, Repr

structure PlayRow where
  username   : String
  discogs_id : String
  played_at  : Nat
deriving DecidableEq, Repr

/-- The `(username, discogs_id)` pair subject to the UNIQUE constraint. -/
def rowKey (row : RecordRow) : String × String := (row.username, row.discogs_id)

/-! ## Provider data and sync normalization

Raw shape of one release item from the provider's paginated
`/users/{u}/collection/folders/0/releases` listing, restricted to the fields
the sync route reads.  `Option` marks fields the JavaScript accesses in a way
that tolerates (or does not tolerate) their absence. -/

structure ArtistRef where
  name : String
deriving DecidableEq, Repr

structure LabelRef where
  name : String
deriving DecidableEq, Repr

structure FormatRef where
  name : String
deriving DecidableEq, Repr

structure BasicInformation where
  title       : String
  cover_image : Option String
  artists     : Option (List ArtistRef)
  labels      : Option (List LabelRef)
  formats     : Option (List FormatRef)
  genres      : Option (List String)
  styles      : Option (List String)
  year        : Option Int
deriving DecidableEq, Repr

structure ReleaseItem where
  id : Int
  basic_information : BasicInformation
deriving DecidableEq, Repr

/-- A normalized release, i.e. the argument tuple of one upsert statement in
the batched merge of `/api/init`'s sync (`route.ts` lines 170-206). -/
structure NormItem where
  username   : String
  discogs_id : String
  title      : String
  artist     : String
  cover_url  : String
  genres     : String
  styles     : String
  year       : Option Int
  label      : Option String
  format     : Option String
deriving DecidableEq, Repr

def itemKey (r : NormItem) : String × String := (r.username, r.discogs_id)

/-- Normalization of one raw item (the body of `allItems.map` in the sync
route).  `const artists = info.artists as Array<{name}>` followed by
`artists[0]?.name ?? 'Unknown'` throws a `TypeError` when `info.artists` is
absent (indexing `[0]` on `undefined` happens before the optional chain), so
that case is `.error`; `labels`, `formats`, `genres` and `styles` are each
defaulted with `?? []` before use.  `(info.year as number) || null` maps both
absence and `0` to SQL NULL; `String(info.cover_image ?? '')` defaults the
cover to the empty string; `String(item.id)` stringifies the numeric id. -/
def normalizeItem (username : String) (item : ReleaseItem) : Except Unit NormItem :=
  match item.basic_information.artists with
  | none => .error ()
  | some artists =>
    .ok {
      username   := username
      discogs_id := toString item.id
      title      := item.basic_information.title
      artist     := (artists.head?.map ArtistRef.name).getD "Unknown"
      cover_url  := item.basic_information.cover_image.getD ""
      genres     := jsonStringifyStrings (item.basic_information.genres.getD [])
      styles     := jsonStringifyStrings (item.basic_information.styles.getD [])
      year       := match item.basic_information.year with
                    | some y => if y = 0 then none else some y
                    | none => none
      label      := ((item.basic_information.labels.getD []).head?.map LabelRef.name)
      format     := ((item.basic_information.formats.getD []).head?.map FormatRef.name) }

/-- `allItems.map(normalize)`: JavaScript's `map` propagates the first thrown
`TypeError`, aborting the whole request before any write. -/
def mapNormalize (username : String) : List ReleaseItem → Except Unit (List NormItem)
  | [] => .ok []
  | item :: rest =>
    match normalizeItem username item, mapNormalize username rest with
    | .error e, _ => .error e
    | .ok _, .error e => .error e
    | .ok r, .ok rs => .ok (r :: rs)

/-! ## The upsert and the batched merge -/

/-- The `ON CONFLICT(username, discogs_id)` test for one target row. -/
def rowKeyMatches (r : NormItem) (row : RecordRow) : Bool :=
  row.username == r.username && row.discogs_id == r.discogs_id

/-- The `DO UPDATE SET` arm: overwrite `title, artist, cover_url, genres,
styles, year, label, format` from `excluded`; `username`, `discogs_id` and
`added_at` are not in the SET list and keep their stored values. -/
def applyUpdate (r : NormItem) (row : RecordRow) : RecordRow :=
  { row with
    title := r.title, artist := r.artist, cover_url := r.cover_url,
    genres := r.genres, styles := r.styles, year := r.year,
    label := r.label, format := r.format }

/-- A fresh insert: `added_at` takes its `DEFAULT CURRENT_TIMESTAMP`. -/
def newRow (now : Nat) (r : NormItem) : RecordRow :=
  { username := r.username, discogs_id := r.discogs_id, title := r.title,
    artist := r.artist, cover_url := r.cover_url, added_at := now,
    genres := r.genres, styles := r.styles, year := r.year,
    label := r.label, format := r.format }

/-- One `INSERT ... ON CONFLICT(username, discogs_id) DO UPDATE SET ...`
statement against the `records` table. -/
def upsertRecord (now : Nat) (db : List RecordRow) (r : NormItem) : List RecordRow :=
  if db.any (rowKeyMatches r) then
    db.map (fun row => if rowKeyMatches r row then applyUpdate r row else row)
  else
    db ++ [newRow now r]

/-- `db.batch(releases.map(upsert), 'write')`: the whole list of upserts runs
as one transaction; its effect on the table is the sequential fold. -/
def batchUpsert (now : Nat) (db : List RecordRow) (rs : List NormItem) : List RecordRow :=
  rs.foldl (upsertRecord now) db

/-! ## Pagination and the sync route -/

/-- Outcome of one `fetch` of a catalog page: a non-2xx HTTP status, or the
parsed body's `releases` array together with `pagination.pages`. -/
inductive PageResponse where
  | failure (status : Nat)
  | success (releases : List ReleaseItem) (pages : Nat)
deriving DecidableEq, Repr

/-- The `do { ... } while (page <= totalPages)` fetch loop.  `fuel` bounds the
number of iterations of the model (`none` = the bound was hit, i.e. the loop
would still be running); the JavaScript loop re-reads `totalPages` from every
response, which is why the bound cannot be computed up front. -/
def fetchAllPages (fetchPage : Nat → PageResponse) :
    Nat → Nat → List ReleaseItem → Option (Except Nat (List ReleaseItem))
  | 0, _, _ => none
  | fuel + 1, page, acc =>
    match fetchPage page with
    | .failure status => some (.error status)
    | .success releases pages =>
      if page + 1 ≤ pages then
        fetchAllPages fetchPage fuel (page + 1) (acc ++ releases)
      else
        some (.ok (acc ++ releases))

/-- `SELECT ... FROM records WHERE username = ? ORDER BY added_at DESC`. -/
def selectUserRecords (username : String) (db : List RecordRow) : List RecordRow :=
  (db.filter (fun row => row.username == username)).mergeSort
    (fun a b => b.added_at ≤ a.added_at)

inductive SyncError where
  | apiError (status : Nat)
  | normalizationThrow
deriving DecidableEq, Repr

structure SyncOutcome where
  db     : List RecordRow
  result : Except SyncError (List RecordRow)
deriving Repr

/-- The GET handler of the multi-tenant sync (`src/app/api/init/route.ts`
lines 141-216), after identity resolution: fetch every page, normalize,
merge in one batch, read the owner's catalog back.  The table `db` is
returned unchanged on every failure path, because `allItems` is accumulated
in memory and `db.batch` runs only after the loop and the map finish. -/
def syncCatalog (fetchPage : Nat → PageResponse) (fuel : Nat) (username : String)
    (now : Nat) (db : List RecordRow) : Option SyncOutcome :=
  match fetchAllPages fetchPage fuel 1 [] with
  | none => none
  | some (.error status) => some ⟨db, .error (.apiError status)⟩
  | some (.ok allItems) =>
    match mapNormalize username allItems with
    | .error _ => some ⟨db, .error .normalizationThrow⟩
    | .ok releases =>
      let db' := batchUpsert now db releases
      some ⟨db', .ok (selectUserRecords username db')⟩

/-! ## The play ledger

Multi-tenant `/api/plays` handlers (`src/unnamed/part_005` lines 72-155): all
statements are scoped by `username = session.username`. -/

structure PlayAggregate where
  discogs_id  : String
  play_count  : Nat
  last_played : Option Nat
deriving DecidableEq, Repr

/-- Body shape of the POST/PATCH responses:
`{discogs_id, play_count, last_played}`. -/
structure PlayResponse where
  discogs_id  : String
  play_count  : Nat
  last_played : Option Nat
deriving DecidableEq, Repr

/-- Rows matched by `WHERE username = ? AND discogs_id = ?`. -/
def playsFor (owner id : String) (plays : List PlayRow) : List PlayRow :=
  plays.filter (fun p => p.username == owner && p.discogs_id == id)

/-- `SELECT COUNT(*) AS play_count, MAX(played_at) AS last_played FROM plays
WHERE username = ? AND discogs_id = ?` (SQL `MAX` of no rows is NULL). -/
def aggregateFor (owner id : String) (plays : List PlayRow) : PlayAggregate :=
  let rows := playsFor owner id plays
  { discogs_id := id, play_count := rows.length,
    last_played := (rows.map PlayRow.played_at).max? }

/-- GET `/api/plays`: `SELECT discogs_id, COUNT(*), MAX(played_at) FROM plays
WHERE username = ? GROUP BY discogs_id` — one aggregate per distinct
`discogs_id` among the owner's rows. -/
def listAggregates (owner : String) (plays : List PlayRow) : List PlayAggregate :=
  (((plays.filter (fun p => p.username == owner)).map PlayRow.discogs_id).dedup).map
    (fun id => aggregateFor owner id plays)

/-- POST `/api/plays`: `INSERT INTO plays (username, discogs_id) VALUES (?, ?)`
(`played_at` takes `DEFAULT CURRENT_TIMESTAMP`), then re-read the aggregate
for that item. -/
def recordPlay (owner id : String) (now : Nat) (plays : List PlayRow) :
    List PlayRow × PlayResponse :=
  let plays' := plays ++ [⟨owner, id, now⟩]
  let agg := aggregateFor owner id plays'
  (plays', ⟨id, agg.play_count, agg.last_played⟩)

/-- `Math.max(0, Math.min(9999, Math.floor(Number(count) || 0)))`.  Numeric
inputs are modelled as integers (`Math.floor` of an integral number is the
identity); `none` models a non-numeric body value, where `Number(count)` is
`NaN` and `NaN || 0` is `0`. -/
def clampCount (count : Option Int) : Nat :=
  (max 0 (min 9999 (count.getD 0))).toNat

/-- PATCH `/api/plays`: `DELETE FROM plays WHERE username = ? AND
discogs_id = ?`, then, when `n > 0`, one recursive-CTE insert of exactly `n`
rows `(username, discogs_id)` each stamped `CURRENT_TIMESTAMP`; the response
reports `n` and `new Date().toISOString()` (or `null` when `n = 0`). -/
def setPlayCount (owner id : String) (count : Option Int) (now : Nat)
    (plays : List PlayRow) : List PlayRow × PlayResponse :=
  let n := clampCount count
  let afterDelete :=
    plays.filter (fun p => !(p.username == owner && p.discogs_id == id))
  let plays' :=
    if n > 0 then afterDelete ++ List.replicate n ⟨owner, id, now⟩ else afterDelete
  (plays', ⟨id, n, if n > 0 then some now else none⟩)

/-! ## Schema migration for `records`

`src/app/api/init/route.ts` lines 4-74: create the tables if absent in the
current multi-tenant shape; if an existing `records` table has no `username`
column (legacy single-tenant schema, `UNIQUE(discogs_id)`), rebuild it:
create `records_v2` with the new shape, copy every row with `username = ''`,
drop the old table, rename. -/

structure LegacyRecordRow where
  discogs_id : String
  title      : String
  artist     : String
  cover_url  : String
  added_at   : Nat
  genres     : String
  styles     : String
  year       : Option Int
  label      : Option String
  format     : Option String
deriving DecidableEq, Repr

/-- State of the `records` table as observed via `PRAGMA table_info`:
absent, legacy single-tenant (no `username` column, unique on `discogs_id`
alone), or current multi-tenant (unique on `(username, discogs_id)`). -/
inductive RecordsTable where
  | absent
  | legacy (rows : List LegacyRecordRow)
  | current (rows : List RecordRow)
deriving DecidableEq, Repr

/-- The `INSERT INTO records_v2 ... SELECT '', discogs_id, title, ... FROM
records` copy: every column value is carried over unchanged and
`username` is the empty-string sentinel. -/
def migrateLegacyRow (r : LegacyRecordRow) : RecordRow :=
  { username := "", discogs_id := r.discogs_id, title := r.title,
    artist := r.artist, cover_url := r.cover_url, added_at := r.added_at,
    genres := r.genres, styles := r.styles, year := r.year,
    label := r.label, format := r.format }

/-- The records part of the GET `/api/init` handler (`ensureSchema`):
`CREATE TABLE IF NOT EXISTS` with the current shape, then the conditional
shadow-table rebuild when the `username` column is missing. -/
def ensureRecordsSchema : RecordsTable → RecordsTable
  | .absent => .current []
  | .legacy rows => .current (rows.map migrateLegacyRow)
  | .current rows => .current rows

/-! ## UTF-8 (`Buffer.from(string)` / `buffer.toString('utf8')`)

Strings are lists of Unicode scalar values (`Char`); `Buffer.from(s)` is
UTF-8 encoding and the reverse direction is UTF-8 decoding.  The decoder
rejects malformed byte sequences (continuation errors, overlong forms,
surrogate code points); on such garbage Node would instead produce
replacement characters that make the subsequent `JSON.parse` throw, which
the caller turns into the same `none` outcome. -/

def utf8EncodeNat (n : Nat) : List Nat :=
  if n < 128 then [n]
  else if n < 2048 then [192 + n / 64, 128 + n % 64]
  else if n < 65536 then [224 + n / 4096, 128 + n / 64 % 64, 128 + n % 64]
  else [240 + n / 262144, 128 + n / 4096 % 64, 128 + n / 64 % 64, 128 + n % 64]

def utf8Bytes (s : List Char) : List Nat :=
  s.flatMap (fun c => utf8EncodeNat c.toNat)

def isContByte (b : Nat) : Bool := 128 ≤ b && b < 192

def isScalarValue (n : Nat) : Prop := n < 55296 ∨ (57344 ≤ n ∧ n < 1114112)

instance (n : Nat) : Decidable (isScalarValue n) := by
  unfold isScalarValue
  infer_instance

/-- Decode a single scalar value from the front of a byte list. -/
def utf8DecodeChar : List Nat → Option (Char × List Nat)
  | [] => none
  | b :: rest =>
    if b < 128 then some (Char.ofNat b, rest)
    else if b < 192 then none
    else if b < 224 then
      match rest with
      | b2 :: rest2 =>
        if isContByte b2 then
          if 128 ≤ (b - 192) * 64 + (b2 - 128) then
            some (Char.ofNat ((b - 192) * 64 + (b2 - 128)), rest2)
          else none
        else none
      | [] => none
    else if b < 240 then
      match rest with
      | b2 :: b3 :: rest2 =>
        if isContByte b2 && isContByte b3 then
          if 2048 ≤ (b - 224) * 4096 + (b2 - 128) * 64 + (b3 - 128) ∧
              isScalarValue ((b - 224) * 4096 + (b2 - 128) * 64 + (b3 - 128)) then
            some (Char.ofNat ((b - 224) * 4096 + (b2 - 128) * 64 + (b3 - 128)), rest2)
          else none
        else none
      | _ => none
    else if b < 248 then
      match rest with
      | b2 :: b3 :: b4 :: rest2 =>
        if isContByte b2 && isContByte b3 && isContByte b4 then
          if 65536 ≤ (b - 240) * 262144 + (b2 - 128) * 4096 + (b3 - 128) * 64 + (b4 - 128) ∧
              (b - 240) * 262144 + (b2 - 128) * 4096 + (b3 - 128) * 64 + (b4 - 128)
                < 1114112 then
            some (Char.ofNat
              ((b - 240) * 262144 + (b2 - 128) * 4096 + (b3 - 128) * 64 + (b4 - 128)),
              rest2)
          else none
        else none
      | _ => none
    else none

/-- Decode a whole byte list; each step consumes at least one byte, so the
input length bounds the iteration count. -/
def utf8DecodeLoop : Nat → List Nat → Option (List Char)
  | _, [] => some []
  | 0, _ :: _ => none
  | fuel + 1, b :: rest =>
    match utf8DecodeChar (b :: rest) with
    | some (c, rest2) => (utf8DecodeLoop fuel rest2).map (fun cs => c :: cs)
    | none => none

def utf8Decode (l : List Nat) : Option (List Char) := utf8DecodeLoop l.length l

/-! ## base64url (`.toString('base64url')` / `Buffer.from(_, 'base64url')`)

RFC 4648 §5 alphabet, no padding (Node's `base64url` digest/encoding
format).  `b64urlDecodeChars` is the inverse on well-formed input and fails
on out-of-alphabet characters or a leftover single character. -/

def b64Char (n : Nat) : Char :=
  if n < 26 then Char.ofNat (65 + n)
  else if n < 52 then Char.ofNat (97 + (n - 26))
  else if n < 62 then Char.ofNat (48 + (n - 52))
  else if n = 62 then '-'
  else '_'

def b64Val (c : Char) : Option Nat :=
  if 65 ≤ c.toNat ∧ c.toNat ≤ 90 then some (c.toNat - 65)
  else if 97 ≤ c.toNat ∧ c.toNat ≤ 122 then some (c.toNat - 97 + 26)
  else if 48 ≤ c.toNat ∧ c.toNat ≤ 57 then some (c.toNat - 48 + 52)
  else if c = '-' then some 62
  else if c = '_' then some 63
  else none

def b64urlEncodeBytes : List Nat → List Char
  | [] => []
  | [b1] => [b64Char (b1 / 4), b64Char (b1 % 4 * 16)]
  | [b1, b2] =>
    [b64Char (b1 / 4), b64Char (b1 % 4 * 16 + b2 / 16), b64Char (b2 % 16 * 4)]
  | b1 :: b2 :: b3 :: rest =>
    b64Char (b1 / 4) :: b64Char (b1 % 4 * 16 + b2 / 16) ::
      b64Char (b2 % 16 * 4 + b3 / 64) :: b64Char (b3 % 64) ::
      b64urlEncodeBytes rest

def b64urlDecodeChars : List Char → Option (List Nat)
  | [] => some []
  | [_] => none
  | [c1, c2] =>
    match b64Val c1, b64Val c2 with
    | some v1, some v2 => some [v1 * 4 + v2 / 16]
    | _, _ => none
  | [c1, c2, c3] =>
    match b64Val c1, b64Val c2, b64Val c3 with
    | some v1, some v2, some v3 => some [v1 * 4 + v2 / 16, v2 % 16 * 16 + v3 / 4]
    | _, _, _ => none
  | c1 :: c2 :: c3 :: c4 :: rest =>
    match b64Val c1, b64Val c2, b64Val c3, b64Val c4 with
    | some v1, some v2, some v3, some v4 =>
      match b64urlDecodeChars rest with
      | some bs =>
        some ((v1 * 4 + v2 / 16) :: (v2 % 16 * 16 + v3 / 4) :: (v3 % 4 * 64 + v4) :: bs)
      | none => none
    | _, _, _, _ => none

/-! ## JSON text for the token payload and the session cookie

`JSON.stringify({u, a, t, s, iat})` produces a flat object literal with no
whitespace, keys in insertion order and `iat` as a bare decimal integer.
The parser models `JSON.parse` restricted to such flat objects of string
and unsigned-integer members (the only shapes this system ever serializes);
on anything else it fails, as `JSON.parse` throws on the garbage the
malformed-token paths feed it.  Duplicate keys resolve to the last
occurrence, as in JavaScript. -/

def lbrace : Char := Char.ofNat 123

def rbrace : Char := Char.ofNat 125

def digitChar (d : Nat) : Char := Char.ofNat (48 + d)

def isDigitChar (c : Char) : Bool := 48 ≤ c.toNat && c.toNat ≤ 57

def natToCharsAux : Nat → Nat → List Char
  | 0, _ => []
  | fuel + 1, n =>
    if n < 10 then [digitChar n]
    else natToCharsAux fuel (n / 10) ++ [digitChar (n % 10)]

/-- Decimal digits of `n` (the text `JSON.stringify` emits for a `Nat`). -/
def natToChars (n : Nat) : List Char := natToCharsAux (n + 1) n

def hexVal (c : Char) : Option Nat :=
  if 48 ≤ c.toNat ∧ c.toNat ≤ 57 then some (c.toNat - 48)
  else if 97 ≤ c.toNat ∧ c.toNat ≤ 102 then some (c.toNat - 97 + 10)
  else if 65 ≤ c.toNat ∧ c.toNat ≤ 70 then some (c.toNat - 65 + 10)
  else none

/-- Scan a JSON string literal body (the opening quote already consumed);
returns the unescaped content and the text after the closing quote. -/
def parseStringLit : List Char → Option (List Char × List Char)
  | [] => none
  | c :: rest =>
    if c = '"' then some ([], rest)
    else if c = '\\' then
      match rest with
      | [] => none
      | e :: rest2 =>
        if e = '"' then (parseStringLit rest2).map (fun p => ('"' :: p.1, p.2))
        else if e = '\\' then (parseStringLit rest2).map (fun p => ('\\' :: p.1, p.2))
        else if e = '/' then (parseStringLit rest2).map (fun p => ('/' :: p.1, p.2))
        else if e = 'b' then
          (parseStringLit rest2).map (fun p => (Char.ofNat 8 :: p.1, p.2))
        else if e = 't' then
          (parseStringLit rest2).map (fun p => (Char.ofNat 9 :: p.1, p.2))
        else if e = 'n' then
          (parseStringLit rest2).map (fun p => (Char.ofNat 10 :: p.1, p.2))
        else if e = 'f' then
          (parseStringLit rest2).map (fun p => (Char.ofNat 12 :: p.1, p.2))
        else if e = 'r' then
          (parseStringLit rest2).map (fun p => (Char.ofNat 13 :: p.1, p.2))
        else if e = 'u' then
          match rest2 with
          | h1 :: h2 :: h3 :: h4 :: rest3 =>
            match hexVal h1, hexVal h2, hexVal h3, hexVal h4 with
            | some v1, some v2, some v3, some v4 =>
              let n := v1 * 4096 + v2 * 256 + v3 * 16 + v4
              if isScalarValue n then
                (parseStringLit rest3).map (fun p => (Char.ofNat n :: p.1, p.2))
              else none
            | _, _, _, _ => none
          | _ => none
        else none
    else (parseStringLit rest).map (fun p => (c :: p.1, p.2))

inductive JsonScalar where
  | str (s : List Char)
  | num (digits : List Char)
deriving DecidableEq, Repr

def parseScalar : List Char → Option (JsonScalar × List Char)
  | [] => none
  | c :: rest =>
    if c = '"' then (parseStringLit rest).map (fun p => (.str p.1, p.2))
    else if isDigitChar c then
      some (.num (c :: rest.takeWhile isDigitChar), rest.dropWhile isDigitChar)
    else none

/-- Members of a flat object, starting right after `{` or `,`; returns the
member list and the text after the closing brace. -/
def parseMembers : Nat → List Char → Option (List (List Char × JsonScalar) × List Char)
  | 0, _ => none
  | fuel + 1, l =>
    match l with
    | [] => none
    | c :: rest =>
      if c = '"' then
        match parseStringLit rest with
        | none => none
        | some (key, rest1) =>
          match rest1 with
          | c1 :: rest2 =>
            if c1 = ':' then
              match parseScalar rest2 with
              | none => none
              | some (v, rest3) =>
                match rest3 with
                | c2 :: rest4 =>
                  if c2 = ',' then
                    match parseMembers fuel rest4 with
                    | none => none
                    | some (ms, rest5) => some ((key, v) :: ms, rest5)
                  else if c2 = rbrace then some ([(key, v)], rest4) else none
                | [] => none
            else none
          | [] => none
      else none

/-- `JSON.parse` of a whole text, restricted to a flat object. -/
def parseFlatObject (l : List Char) : Option (List (List Char × JsonScalar)) :=
  match l with
  | [] => none
  | c :: rest =>
    if c = lbrace then
      match rest with
      | [] => none
      | c2 :: rest2 =>
        if c2 = rbrace then (if rest2 = [] then some [] else none)
        else
          match parseMembers l.length rest with
          | some (ms, []) => some ms
          | _ => none
    else none

/-- Property access on the parsed object; duplicate keys: last one wins. -/
def lookupMember (key : List Char) (ms : List (List Char × JsonScalar)) :
    Option JsonScalar :=
  ms.foldl (fun acc m => if m.1 = key then some m.2 else acc) none

def lookupStr (key : List Char) (ms : List (List Char × JsonScalar)) :
    Option (List Char) :=
  match lookupMember key ms with
  | some (.str s) => some s
  | _ => none

/-! ## The session layer

`SessionData`, `createMobileToken`, `verifyMobileToken` and `getSession`
from the session module (`src/components/GridErrorBoundary.tsx` lines
56-132).  `createHmac('sha256', secret).update(m).digest()` is the external
crypto primitive; it is modelled as an arbitrary function `hmac` from the
secret and the message to the digest's byte list, and `digest('base64url')`
is that byte list run through the base64url encoder above.  `Date.now()` is
passed in as `iat`. -/

structure SessionData where
  username            : String
  avatar_url          : String
  access_token        : String
  access_token_secret : String
deriving DecidableEq, Repr

def jsonStrMember (key value rest : List Char) : List Char :=
  jsonQuote key ++ ':' :: jsonQuote value ++ rest

/-- The exact text of `JSON.stringify({u, a, t, s, iat})`. -/
def stringifyPayload (sd : SessionData) (iat : Nat) : List Char :=
  lbrace :: jsonStrMember ['u'] sd.username.data (',' ::
    jsonStrMember ['a'] sd.avatar_url.data (',' ::
      jsonStrMember ['t'] sd.access_token.data (',' ::
        jsonStrMember ['s'] sd.access_token_secret.data (',' ::
          (jsonQuote ['i', 'a', 't'] ++ ':' :: natToChars iat ++ [rbrace])))))

def createMobileToken (hmac : String → List Char → List Nat) (secret : String)
    (iat : Nat) (session : SessionData) : List Char :=
  let payload := b64urlEncodeBytes (utf8Bytes (stringifyPayload session iat))
  payload ++ '.' :: b64urlEncodeBytes (hmac secret payload)

/-- `token.lastIndexOf('.')`: split at the last dot; `none` models
`dot < 0`. -/
def splitLastDot : List Char → Option (List Char × List Char)
  | [] => none
  | c :: rest =>
    match splitLastDot rest with
    | some (p, s) => some (c :: p, s)
    | none => if c = '.' then some ([], rest) else none

/-- Fields of the decoded payload object that `verifyMobileToken` reads
(`iat` is parsed but never used). -/
structure TokenPayload where
  u : Option (List Char)
  a : Option (List Char)
  t : Option (List Char)
  s : Option (List Char)
deriving DecidableEq, Repr

def parsePayload (l : List Char) : Option TokenPayload :=
  (parseFlatObject l).map fun ms =>
    ⟨lookupStr ['u'] ms, lookupStr ['a'] ms, lookupStr ['t'] ms, lookupStr ['s'] ms⟩

def verifyMobileToken (hmac : String → List Char → List Nat) (secret : String)
    (token : List Char) : Option SessionData :=
  match splitLastDot token with
  | none => none
  | some (payload, sig) =>
    if sig = b64urlEncodeBytes (hmac secret payload) then
      match b64urlDecodeChars payload with
      | none => none
      | some bytes =>
        match utf8Decode bytes with
        | none => none
        | some json =>
          match parsePayload json with
          | none => none
          | some data =>
            match data.u, data.t, data.s with
            | some u, some t, some s =>
              if u = [] || t = [] || s = [] then none
              else some ⟨⟨u⟩, ⟨data.a.getD []⟩, ⟨t⟩, ⟨s⟩⟩
            | _, _, _ => none
    else none

/-- The `discogs_session` cookie branch of `getSession`: `JSON.parse` the
raw cookie value and require `username`, `access_token`,
`access_token_secret` (JavaScript falsiness: missing or empty fails). -/
def cookieSession (raw : Option String) : Option SessionData :=
  match raw with
  | none => none
  | some raw =>
    match parseFlatObject raw.data with
    | none => none
    | some ms =>
      match lookupStr ("username".data) ms, lookupStr ("access_token".data) ms,
          lookupStr ("access_token_secret".data) ms with
      | some u, some t, some s =>
        if u = [] || t = [] || s = [] then none
        else some ⟨⟨u⟩, ⟨(lookupStr ("avatar_url".data) ms).getD []⟩, ⟨t⟩, ⟨s⟩⟩
      | _, _, _ => none

/-- `getSession(request)`: try the `Authorization: Bearer` header first,
fall back to the cookie. -/
def getSession (hmac : String → List Char → List Nat) (secret : String)
    (authorization : Option String) (cookie : Option String) : Option SessionData :=
  match authorization with
  | some auth =>
    if "Bearer ".data.isPrefixOf auth.data then
      match verifyMobileToken hmac secret (auth.data.drop 7) with
      | some s => some s
      | none => cookieSession cookie
    else cookieSession cookie
  | none => cookieSession cookie

/-! ## Concrete sample values (used to instantiate theorems) -/

def wItem : NormItem :=
  { username := "alice", discogs_id := "100", title := "A", artist := "Artist",
    cover_url := "", genres := "[]", styles := "[]", year := none,
    label := none, format := none }

def wItemB : NormItem :=
  { username := "bob", discogs_id := "100", title := "B", artist := "Artist",
    cover_url := "", genres := "[]", styles := "[]", year := none,
    label := none, format := none }

def wItemRetitled : NormItem :=
  { username := "alice", discogs_id := "100", title := "A (remaster)",
    artist := "Artist", cover_url := "", genres := "[]", styles := "[]",
    year := none, label := none, format := none }

def wRow : RecordRow :=
  { username := "alice", discogs_id := "100", title := "A", artist := "Artist",
    cover_url := "", added_at := 3, genres := "[]", styles := "[]",
    year := none, label := none, format := none }

def wLegacy : LegacyRecordRow :=
  { discogs_id := "100", title := "A", artist := "Artist", cover_url := "",
    added_at := 3, genres := "[]", styles := "[]", year := none,
    label := none, format := none }

def wBadItem : ReleaseItem :=
  { id := 100,
    basic_information :=
      { title := "A", cover_image := none, artists := none, labels := none,
        formats := none, genres := none, styles := none, year := none } }

def wFetchFail : Nat → PageResponse :=
  fun p => if p = 2 then .failure 503 else .success [] 3

def wFetchBad : Nat → PageResponse := fun _ => .success [wBadItem] 1

def wFetchEmpty : Nat → PageResponse := fun _ => .success [] 1

def wSession : SessionData :=
  { username := "alice", avatar_url := "", access_token := "tok",
    access_token_secret := "sec" }

/-- A stand-in digest for instantiations: a constant 32-byte output. -/
def wHmacA : String → List Char → List Nat := fun _ _ => List.replicate 32 0

/-- The payload `createMobileToken` signs for `wSession` at `iat = 0`. -/
def wPayload : List Char := b64urlEncodeBytes (utf8Bytes (stringifyPayload wSession 0))

/-- A digest with no second preimage of `wPayload`: 32 bytes either way,
but every other message digests to a different value. -/
def wHmacB : String → List Char → List Nat :=
  fun _ m => if m = wPayload then List.replicate 32 0 else 1 :: List.replicate 31 0

/-! ## Derived notions used by the statements -/

/-- Effect of one upsert statement on one row: overwrite when the conflict
target matches, otherwise leave the row alone. -/
def owIfMatch (r : NormItem) (row : RecordRow) : RecordRow :=
  if rowKeyMatches r row then applyUpdate r row else row

/-- Net effect of a list of upserts on a single pre-existing row. -/
def netUpdate (items : List NormItem) (row : RecordRow) : RecordRow :=
  items.foldl (fun row r => owIfMatch r row) row

def keysOf (db : List RecordRow) : List (String × String) := db.map rowKey

/-- The `UNIQUE(username, discogs_id)` invariant of the `records` table. -/
def KeysNodup (db : List RecordRow) : Prop := (keysOf db).Nodup

/-- The table after a sequence of sync merges (each with its own clock
reading and provider snapshot). -/
def syncSeq (batches : List (Nat × List NormItem)) (db : List RecordRow) : List RecordRow :=
  batches.foldl (fun db b => batchUpsert b.1 db b.2) db

/-! ## Lemmas about the upsert and the batched merge -/

theorem rowKeyMatches_iff {r : NormItem} {row : RecordRow} :
    rowKeyMatches r row = true ↔ rowKey row = itemKey r := by
  simp [rowKeyMatches, rowKey, itemKey, Bool.and_eq_true, Prod.ext_iff]

theorem rowKey_applyUpdate (r : NormItem) (row : RecordRow) :
    rowKey (applyUpdate r row) = rowKey row := rfl

theorem addedAt_applyUpdate (r : NormItem) (row : RecordRow) :
    (applyUpdate r row).added_at = row.added_at := rfl

theorem rowKeyMatches_applyUpdate (r r' : NormItem) (row : RecordRow) :
    rowKeyMatches r' (applyUpdate r row) = rowKeyMatches r' row := rfl

theorem rowKey_owIfMatch (r : NormItem) (row : RecordRow) :
    rowKey (owIfMatch r row) = rowKey row := by
  unfold owIfMatch; split <;> rfl

theorem rowKeyMatches_owIfMatch (r r' : NormItem) (row : RecordRow) :
    rowKeyMatches r' (owIfMatch r row) = rowKeyMatches r' row := by
  unfold owIfMatch; split <;> rfl

theorem addedAt_owIfMatch (r : NormItem) (row : RecordRow) :
    (owIfMatch r row).added_at = row.added_at := by
  unfold owIfMatch; split <;> rfl

theorem rowKey_newRow (now : Nat) (r : NormItem) :
    rowKey (newRow now r) = itemKey r := rfl

theorem applyUpdate_applyUpdate (r r' : NormItem) (row : RecordRow) :
    applyUpdate r (applyUpdate r' row) = applyUpdate r row := rfl

theorem applyUpdate_newRow (now : Nat) (r : NormItem) :
    applyUpdate r (newRow now r) = newRow now r := rfl

theorem applyUpdate_congr {x y : RecordRow} (r : NormItem)
    (hk : rowKey x = rowKey y) (ha : x.added_at = y.added_at) :
    applyUpdate r x = applyUpdate r y := by
  cases x; cases y
  simp only [rowKey, Prod.mk.injEq] at hk
  simp_all [applyUpdate]

theorem rowKeyMatches_congr {x y : RecordRow} (r : NormItem) (hk : rowKey x = rowKey y) :
    rowKeyMatches r x = rowKeyMatches r y := by
  cases x; cases y
  simp only [rowKey, Prod.mk.injEq] at hk
  simp_all [rowKeyMatches]

theorem any_matches_iff {db : List RecordRow} {r : NormItem} :
    db.any (rowKeyMatches r) = true ↔ itemKey r ∈ keysOf db := by
  rw [List.any_eq_true]
  constructor
  · rintro ⟨row, hmem, hm⟩
    exact List.mem_map.2 ⟨row, hmem, rowKeyMatches_iff.1 hm⟩
  · intro h
    rcases List.mem_map.1 h with ⟨row, hmem, hk⟩
    exact ⟨row, hmem, rowKeyMatches_iff.2 hk⟩

theorem upsert_eq_update {now : Nat} {db : List RecordRow} {r : NormItem}
    (h : itemKey r ∈ keysOf db) :
    upsertRecord now db r = db.map (owIfMatch r) := by
  unfold upsertRecord owIfMatch
  rw [if_pos (any_matches_iff.2 h)]

theorem upsert_eq_append {now : Nat} {db : List RecordRow} {r : NormItem}
    (h : itemKey r ∉ keysOf db) :
    upsertRecord now db r = db ++ [newRow now r] := by
  unfold upsertRecord
  rw [if_neg (fun hc => h (any_matches_iff.1 hc))]

theorem keysOf_map_owIfMatch (db : List RecordRow) (r : NormItem) :
    keysOf (db.map (owIfMatch r)) = keysOf db := by
  unfold keysOf
  rw [List.map_map]
  exact List.map_congr_left fun row _ => rowKey_owIfMatch r row

theorem keysOf_upsert_superset {now : Nat} {db : List RecordRow} {r : NormItem} :
    ∀ k ∈ keysOf db, k ∈ keysOf (upsertRecord now db r) := by
  intro k hk
  by_cases h : itemKey r ∈ keysOf db
  · rwa [upsert_eq_update h, keysOf_map_owIfMatch]
  · rw [upsert_eq_append h]
    unfold keysOf at *
    rw [List.map_append]
    exact List.mem_append_left _ hk

theorem itemKey_mem_keysOf_upsert (now : Nat) (db : List RecordRow) (r : NormItem) :
    itemKey r ∈ keysOf (upsertRecord now db r) := by
  by_cases h : itemKey r ∈ keysOf db
  · rw [upsert_eq_update h, keysOf_map_owIfMatch]; exact h
  · rw [upsert_eq_append h]
    unfold keysOf
    rw [List.map_append]
    exact List.mem_append_right _ (by simp [rowKey_newRow])

theorem keysOf_batch_superset {now : Nat} {items : List NormItem} :
    ∀ {db : List RecordRow}, ∀ k ∈ keysOf db, k ∈ keysOf (batchUpsert now db items) := by
  induction items with
  | nil => intro db k hk; exact hk
  | cons i is ih =>
    intro db k hk
    exact ih _ (keysOf_upsert_superset k hk)

theorem itemKeys_mem_batch {now : Nat} {items : List NormItem} :
    ∀ {db : List RecordRow}, ∀ r ∈ items, itemKey r ∈ keysOf (batchUpsert now db items) := by
  induction items with
  | nil => intro db r hr; cases hr
  | cons i is ih =>
    intro db r hr
    rcases List.mem_cons.1 hr with rfl | hr
    · show itemKey r ∈ keysOf (batchUpsert now (upsertRecord now db r) is)
      exact keysOf_batch_superset _ (itemKey_mem_keysOf_upsert now db r)
    · exact ih _ hr

theorem keysNodup_upsert {now : Nat} {db : List RecordRow} {r : NormItem}
    (h : KeysNodup db) : KeysNodup (upsertRecord now db r) := by
  by_cases hm : itemKey r ∈ keysOf db
  · unfold KeysNodup
    rwa [upsert_eq_update hm, keysOf_map_owIfMatch]
  · unfold KeysNodup at *
    rw [upsert_eq_append hm]
    unfold keysOf at *
    rw [List.map_append]
    simp only [List.map_cons, List.map_nil]
    rw [List.nodup_append]
    refine ⟨h, List.nodup_singleton _, ?_⟩
    intro k hk hk'
    simp only [List.mem_singleton] at hk'
    subst hk'
    exact hm (by simpa [keysOf, rowKey_newRow] using hk)

theorem keysNodup_batch {now : Nat} {items : List NormItem} :
    ∀ {db : List RecordRow}, KeysNodup db → KeysNodup (batchUpsert now db items) := by
  induction items with
  | nil => intro db h; exact h
  | cons i is ih => intro db h; exact ih (keysNodup_upsert h)

theorem netUpdate_nil (row : RecordRow) : netUpdate [] row = row := rfl

theorem netUpdate_cons (r : NormItem) (rs : List NormItem) (row : RecordRow) :
    netUpdate (r :: rs) row = netUpdate rs (owIfMatch r row) := rfl

theorem netUpdate_append (l₁ l₂ : List NormItem) (row : RecordRow) :
    netUpdate (l₁ ++ l₂) row = netUpdate l₂ (netUpdate l₁ row) := by
  unfold netUpdate
  rw [List.foldl_append]

theorem addedAt_netUpdate (items : List NormItem) :
    ∀ row : RecordRow, (netUpdate items row).added_at = row.added_at := by
  induction items with
  | nil => intro row; rfl
  | cons r rs ih =>
    intro row
    rw [netUpdate_cons, ih, addedAt_owIfMatch]

theorem rowKey_netUpdate (items : List NormItem) :
    ∀ row : RecordRow, rowKey (netUpdate items row) = rowKey row := by
  induction items with
  | nil => intro row; rfl
  | cons r rs ih =>
    intro row
    rw [netUpdate_cons, ih, rowKey_owIfMatch]

theorem netUpdate_no_match {items : List NormItem} :
    ∀ {row : RecordRow}, (∀ r ∈ items, rowKeyMatches r row = false) →
      netUpdate items row = row := by
  induction items with
  | nil => intro row _; rfl
  | cons i is ih =>
    intro row h
    rw [netUpdate_cons]
    have hi : owIfMatch i row = row := by
      unfold owIfMatch
      rw [if_neg (by simp [h i (List.mem_cons_self i is)])]
    rw [hi]
    exact ih fun r hr => h r (List.mem_cons_of_mem _ hr)

theorem netUpdate_congr_of_match {items : List NormItem} :
    ∀ {x y : RecordRow}, rowKey x = rowKey y → x.added_at = y.added_at →
      (∃ r ∈ items, rowKeyMatches r x = true) →
      netUpdate items x = netUpdate items y := by
  induction items with
  | nil =>
    intro x y _ _ hex
    rcases hex with ⟨r, hr, _⟩
    cases hr
  | cons i is ih =>
    intro x y hk ha hex
    rw [netUpdate_cons, netUpdate_cons]
    by_cases hm : rowKeyMatches i x = true
    · have hmy : rowKeyMatches i y = true := by
        rwa [← rowKeyMatches_congr i hk]
      unfold owIfMatch
      rw [if_pos hm, if_pos hmy, applyUpdate_congr i hk ha]
    · have hmy : ¬ rowKeyMatches i y = true := by
        rwa [← rowKeyMatches_congr i hk]
      unfold owIfMatch
      rw [if_neg hm, if_neg hmy]
      rcases hex with ⟨r, hr, hmr⟩
      rcases List.mem_cons.1 hr with rfl | hr
      · exact absurd hmr hm
      · exact ih hk ha ⟨r, hr, hmr⟩

theorem batchUpsert_nil (now : Nat) (db : List RecordRow) :
    batchUpsert now db [] = db := rfl

theorem batchUpsert_cons (now : Nat) (db : List RecordRow) (i : NormItem)
    (is : List NormItem) :
    batchUpsert now db (i :: is) = batchUpsert now (upsertRecord now db i) is := rfl

theorem batchUpsert_append (now : Nat) (db : List RecordRow) (l₁ l₂ : List NormItem) :
    batchUpsert now db (l₁ ++ l₂) = batchUpsert now (batchUpsert now db l₁) l₂ := by
  unfold batchUpsert
  rw [List.foldl_append]

theorem map_netUpdate_nil (db : List RecordRow) : db.map (netUpdate []) = db := by
  have : db.map (netUpdate []) = db.map id := List.map_congr_left fun row _ => rfl
  rw [this, List.map_id]

/-- When every incoming item's conflict key is already present, the whole
batch is a pure per-row update: no row is inserted, removed or reordered. -/
theorem batchUpsert_all_present {now : Nat} {items : List NormItem} :
    ∀ {db : List RecordRow}, (∀ r ∈ items, itemKey r ∈ keysOf db) →
      batchUpsert now db items = db.map (netUpdate items) := by
  induction items with
  | nil => intro db _; rw [batchUpsert_nil, map_netUpdate_nil]
  | cons i is ih =>
    intro db h
    rw [batchUpsert_cons, upsert_eq_update (h i (List.mem_cons_self i is))]
    have hs : ∀ r ∈ is, itemKey r ∈ keysOf (db.map (owIfMatch i)) := by
      intro r hr
      rw [keysOf_map_owIfMatch]
      exact h r (List.mem_cons_of_mem _ hr)
    rw [ih hs, List.map_map]
    exact List.map_congr_left fun row _ => rfl

/-- Structure of any batched merge: the first `db.length` result rows are the
original rows in order, each transformed by the net update; freshly inserted
rows follow at the end. -/
theorem batchUpsert_structure {now : Nat} {items : List NormItem} :
    ∀ {db : List RecordRow}, ∃ ext : List RecordRow,
      batchUpsert now db items = db.map (netUpdate items) ++ ext := by
  induction items with
  | nil =>
    intro db
    exact ⟨[], by rw [batchUpsert_nil, map_netUpdate_nil, List.append_nil]⟩
  | cons i is ih =>
    intro db
    by_cases hm : itemKey i ∈ keysOf db
    · rw [batchUpsert_cons, upsert_eq_update hm]
      rcases @ih (db.map (owIfMatch i)) with ⟨ext, hext⟩
      refine ⟨ext, ?_⟩
      rw [hext, List.map_map]
      congr 1
    · rw [batchUpsert_cons, upsert_eq_append hm]
      rcases @ih (db ++ [newRow now i]) with ⟨ext, hext⟩
      refine ⟨netUpdate is (newRow now i) :: ext, ?_⟩
      rw [hext, List.map_append, List.map_singleton, List.append_assoc]
      congr 1
      · refine List.map_congr_left fun row hrow => ?_
        rw [netUpdate_cons]
        have : owIfMatch i row = row := by
          unfold owIfMatch
          rw [if_neg]
          intro hc
          exact hm (rowKeyMatches_iff.1 (by simpa using hc) ▸
            List.mem_map.2 ⟨row, hrow, rfl⟩)
        rw [this]

/-- Every row of the merged table is a fixed point of the batch's net update:
one more pass over the same items cannot change it. -/
theorem batchUpsert_fixed_point {now : Nat} {items : List NormItem} :
    ∀ {db : List RecordRow}, ∀ row ∈ batchUpsert now db items,
      netUpdate items row = row := by
  induction items using List.reverseRecOn with
  | nil => intro db row _; rfl
  | append_singleton is i ih =>
    intro db row' hrow'
    rw [batchUpsert_append] at hrow'
    rw [netUpdate_append]
    set D := batchUpsert now db is with hD
    by_cases hm : itemKey i ∈ keysOf D
    · rw [batchUpsert_cons, upsert_eq_update hm, batchUpsert_nil] at hrow'
      rcases List.mem_map.1 hrow' with ⟨row, hrow, rfl⟩
      by_cases hmi : rowKeyMatches i row = true
      · have hrow'eq : owIfMatch i row = applyUpdate i row := by
          unfold owIfMatch; rw [if_pos hmi]
        rw [hrow'eq]
        by_cases hex : ∃ r ∈ is, rowKeyMatches r (applyUpdate i row) = true
        · have hcongr := @netUpdate_congr_of_match is _ _
            (rowKey_applyUpdate i row) (addedAt_applyUpdate i row) hex
          rw [hcongr, ih row hrow]
          show netUpdate [i] row = applyUpdate i row
          rw [netUpdate_cons, netUpdate_nil]
          unfold owIfMatch
          rw [if_pos hmi]
        · push_neg at hex
          have hno : ∀ r ∈ is, rowKeyMatches r (applyUpdate i row) = false :=
            fun r hr => Bool.eq_false_iff.2 (fun hc => hex r hr hc)
          rw [netUpdate_no_match hno]
          show netUpdate [i] (applyUpdate i row) = applyUpdate i row
          rw [netUpdate_cons, netUpdate_nil]
          unfold owIfMatch
          rw [if_pos (by rw [rowKeyMatches_applyUpdate]; exact hmi),
            applyUpdate_applyUpdate]
      · have hrow'eq : owIfMatch i row = row := by
          unfold owIfMatch; rw [if_neg hmi]
        rw [hrow'eq, ih row hrow]
        show netUpdate [i] row = row
        rw [netUpdate_cons, netUpdate_nil]
        unfold owIfMatch
        rw [if_neg hmi]
    · rw [batchUpsert_cons, upsert_eq_append hm, batchUpsert_nil] at hrow'
      rcases List.mem_append.1 hrow' with hrow | hnew
      · rw [ih row' hrow]
        show netUpdate [i] row' = row'
        rw [netUpdate_cons, netUpdate_nil]
        unfold owIfMatch
        rw [if_neg]
        intro hc
        exact hm (rowKeyMatches_iff.1 (by simpa using hc) ▸
          List.mem_map.2 ⟨row', hrow, rfl⟩)
      · have hrow'eq : row' = newRow now i := List.mem_singleton.1 hnew
        subst hrow'eq
        have hno : ∀ r ∈ is, rowKeyMatches r (newRow now i) = false := by
          intro r hr
          refine Bool.eq_false_iff.2 fun hc => ?_
          have hkey : rowKey (newRow now i) = itemKey r := rowKeyMatches_iff.1 hc
          rw [rowKey_newRow] at hkey
          exact hm (hkey ▸ itemKeys_mem_batch r hr)
        rw [netUpdate_no_match hno]
        show netUpdate [i] (newRow now i) = newRow now i
        rw [netUpdate_cons, netUpdate_nil]
        unfold owIfMatch
        rw [if_pos (rowKeyMatches_iff.2 (rowKey_newRow now i)), applyUpdate_newRow]

/-- Re-running the identical batch against the merged table is a no-op,
whatever timestamp the second run observes. -/
theorem batchUpsert_idempotent (now now₂ : Nat) (items : List NormItem)
    (db : List RecordRow) :
    batchUpsert now₂ (batchUpsert now db items) items = batchUpsert now db items := by
  have h1 : ∀ r ∈ items, itemKey r ∈ keysOf (batchUpsert now db items) :=
    fun r hr => itemKeys_mem_batch r hr
  rw [batchUpsert_all_present h1]
  have h2 : ∀ row ∈ batchUpsert now db items, netUpdate items row = row :=
    fun row hrow => batchUpsert_fixed_point row hrow
  rw [List.map_congr_left h2]
  exact List.map_id' _

/-- The first `db.length` rows of the merged table are exactly the original
rows, in order, with the net update applied. -/
theorem batchUpsert_take (now : Nat) (items : List NormItem) (db : List RecordRow) :
    (batchUpsert now db items).take db.length = db.map (netUpdate items) := by
  rcases @batchUpsert_structure now items db with ⟨ext, hext⟩
  rw [hext]
  exact List.take_left' (List.length_map db _)

theorem syncSeq_nil (db : List RecordRow) : syncSeq [] db = db := rfl

theorem syncSeq_cons (b : Nat × List NormItem) (bs : List (Nat × List NormItem))
    (db : List RecordRow) :
    syncSeq (b :: bs) db = syncSeq bs (batchUpsert b.1 db b.2) := rfl

theorem keysNodup_syncSeq {batches : List (Nat × List NormItem)} :
    ∀ {db : List RecordRow}, KeysNodup db → KeysNodup (syncSeq batches db) := by
  induction batches with
  | nil => intro db h; exact h
  | cons b bs ih => intro db h; exact ih (keysNodup_batch h)

theorem keysOf_syncSeq_superset {batches : List (Nat × List NormItem)} :
    ∀ {db : List RecordRow}, ∀ k ∈ keysOf db, k ∈ keysOf (syncSeq batches db) := by
  induction batches with
  | nil => intro db k hk; exact hk
  | cons b bs ih => intro db k hk; exact ih _ (keysOf_batch_superset k hk)

theorem itemKeys_mem_syncSeq {batches : List (Nat × List NormItem)} :
    ∀ {db : List RecordRow}, ∀ b ∈ batches, ∀ r ∈ b.2,
      itemKey r ∈ keysOf (syncSeq batches db) := by
  induction batches with
  | nil => intro db b hb; cases hb
  | cons b' bs ih =>
    intro db b hb r hr
    rcases List.mem_cons.1 hb with rfl | hb
    · show itemKey r ∈ keysOf (syncSeq bs (batchUpsert b.1 db b.2))
      exact keysOf_syncSeq_superset _ (itemKeys_mem_batch r hr)
    · exact ih b hb r hr

/-! ## Lemmas about the play ledger -/

theorem filter_username_idem_records (owner : String) (db : List RecordRow) :
    (db.filter (fun row => row.username == owner)).filter
        (fun row => row.username == owner)
      = db.filter (fun row => row.username == owner) := by
  rw [List.filter_filter]
  exact List.filter_congr fun row _ => by cases h : row.username == owner <;> simp [h]

theorem filter_username_idem (owner : String) (plays : List PlayRow) :
    (plays.filter (fun p => p.username == owner)).filter (fun p => p.username == owner)
      = plays.filter (fun p => p.username == owner) := by
  rw [List.filter_filter]
  exact List.filter_congr fun p _ => by cases h : p.username == owner <;> simp [h]

theorem playsFor_filter_username (owner id : String) (plays : List PlayRow) :
    playsFor owner id (plays.filter (fun p => p.username == owner))
      = playsFor owner id plays := by
  unfold playsFor
  rw [List.filter_filter]
  exact List.filter_congr fun p _ => by cases h : p.username == owner <;> simp [h]

theorem playsFor_delete (owner id : String) (plays : List PlayRow) :
    playsFor owner id
      (plays.filter (fun p => !(p.username == owner && p.discogs_id == id))) = [] := by
  unfold playsFor
  rw [List.filter_filter]
  have h : ∀ p ∈ plays,
      ((p.username == owner && p.discogs_id == id) &&
        !(p.username == owner && p.discogs_id == id)) = false := by
    intro p _
    cases p.username == owner && p.discogs_id == id <;> simp
  rw [List.filter_congr h]
  exact List.filter_false _

theorem playsFor_replicate (owner id : String) (now n : Nat) :
    playsFor owner id (List.replicate n ⟨owner, id, now⟩) =
      List.replicate n ⟨owner, id, now⟩ := by
  unfold playsFor
  rw [List.filter_replicate]
  simp

/-! ## Lemmas about pagination and normalization failure -/

/-- If page `failPage` answers with a non-success status and every earlier
page succeeds while advertising at least `failPage` total pages, the fetch
loop stops at `failPage` and reports exactly its status. -/
theorem fetchAllPages_abort {fetchPage : Nat → PageResponse} {failPage status : Nat}
    (hfail : fetchPage failPage = .failure status)
    (hok : ∀ p, 1 ≤ p → p < failPage →
      ∃ rel tp, fetchPage p = .success rel tp ∧ failPage ≤ tp) :
    ∀ fuel page acc, 1 ≤ page → page ≤ failPage → failPage - page < fuel →
      fetchAllPages fetchPage fuel page acc = some (.error status) := by
  intro fuel
  induction fuel with
  | zero => intro page acc _ _ hlt; omega
  | succ fuel ih =>
    intro page acc h1 h2 hlt
    by_cases heq : page = failPage
    · subst heq
      unfold fetchAllPages
      rw [hfail]
    · rcases hok page h1 (by omega) with ⟨rel, tp, hsucc, htp⟩
      unfold fetchAllPages
      rw [hsucc]
      simp only
      rw [if_pos (by omega)]
      exact ih (page + 1) (acc ++ rel) (by omega) (by omega) (by omega)

/-- Every failure path of the sync route leaves the records table exactly as
it was: the batch write runs only on the all-pages-ok, all-items-normalized
path. -/
theorem syncCatalog_error_preserves_db
    (fetchPage : Nat → PageResponse) (fuel : Nat) (username : String) (now : Nat)
    (db : List RecordRow) (o : SyncOutcome) (e : SyncError)
    (h : syncCatalog fetchPage fuel username now db = some o)
    (he : o.result = .error e) : o.db = db := by
  revert h
  unfold syncCatalog
  cases hf : fetchAllPages fetchPage fuel 1 [] with
  | none => intro h; cases h
  | some r =>
    cases r with
    | error s =>
      dsimp only
      intro h
      simp only [Option.some.injEq] at h
      rw [← h]
    | ok items =>
      dsimp only
      cases hm : mapNormalize username items with
      | error u =>
        dsimp only
        intro h
        simp only [Option.some.injEq] at h
        rw [← h]
      | ok releases =>
        dsimp only
        intro h
        simp only [Option.some.injEq] at h
        rw [← h] at he
        simp at he

/-- An item that the normalizer rejects poisons the whole `map`: JavaScript's
`Array.prototype.map` propagates the first thrown exception. -/
theorem mapNormalize_error {u : String} :
    ∀ {items : List ReleaseItem} {item : ReleaseItem}, item ∈ items →
      normalizeItem u item = .error () → mapNormalize u items = .error () := by
  intro items
  induction items with
  | nil => intro item hm; cases hm
  | cons i is ih =>
    intro item hm hn
    rcases List.mem_cons.1 hm with rfl | hm
    · unfold mapNormalize
      rw [hn]
    · unfold mapNormalize
      cases hi : normalizeItem u i with
      | error e => rfl
      | ok r => rw [ih hm hn]

/-! ## UTF-8 round trip -/

theorem char_scalar (c : Char) : isScalarValue c.toNat := by
  have h := c.valid
  unfold UInt32.isValidChar Nat.isValidChar at h
  exact h

theorem char_lt (c : Char) : c.toNat < 1114112 := by
  have h := char_scalar c
  unfold isScalarValue at h
  omega

theorem utf8EncodeNat_ne_nil (n : Nat) : utf8EncodeNat n ≠ [] := by
  unfold utf8EncodeNat
  split_ifs <;> simp

theorem utf8DecodeChar_encode (c : Char) (rest : List Nat) :
    utf8DecodeChar (utf8EncodeNat c.toNat ++ rest) = some (c, rest) := by
  have hv := char_scalar c
  unfold isScalarValue at hv
  by_cases h1 : c.toNat < 128
  · have he : utf8EncodeNat c.toNat = [c.toNat] := by
      unfold utf8EncodeNat
      rw [if_pos h1]
    rw [he]
    show utf8DecodeChar (c.toNat :: rest) = _
    unfold utf8DecodeChar
    dsimp only
    rw [if_pos h1, Char.ofNat_toNat]
  · by_cases h2 : c.toNat < 2048
    · have he : utf8EncodeNat c.toNat
          = [192 + c.toNat / 64, 128 + c.toNat % 64] := by
        unfold utf8EncodeNat
        rw [if_neg h1, if_pos h2]

      rw [he]
      show utf8DecodeChar ((192 + c.toNat / 64) :: (128 + c.toNat % 64) :: rest) = _
      unfold utf8DecodeChar
      dsimp only
      rw [if_neg (by omega), if_neg (by omega), if_pos (by omega)]
      have hc : isContByte (128 + c.toNat % 64) = true := by
        unfold isContByte
        simp only [Bool.and_eq_true, decide_eq_true_eq]
        omega
      rw [if_pos hc, if_pos (by omega)]
      have harith : (192 + c.toNat / 64 - 192) * 64 + (128 + c.toNat % 64 - 128)
          = c.toNat := by omega
      rw [harith, Char.ofNat_toNat]
    · by_cases h3 : c.toNat < 65536
      · have he : utf8EncodeNat c.toNat
            = [224 + c.toNat / 4096, 128 + c.toNat / 64 % 64, 128 + c.toNat % 64] := by
          unfold utf8EncodeNat
          rw [if_neg h1, if_neg h2, if_pos h3]
        rw [he]
        show utf8DecodeChar ((224 + c.toNat / 4096) :: (128 + c.toNat / 64 % 64) ::
          (128 + c.toNat % 64) :: rest) = _
        unfold utf8DecodeChar
        dsimp only
        rw [if_neg (by omega), if_neg (by omega), if_neg (by omega), if_pos (by omega)]
        have hc : (isContByte (128 + c.toNat / 64 % 64) &&
            isContByte (128 + c.toNat % 64)) = true := by
          unfold isContByte
          simp only [Bool.and_eq_true, decide_eq_true_eq]
          omega
        rw [if_pos hc]
        have harith : (224 + c.toNat / 4096 - 224) * 4096 +
            (128 + c.toNat / 64 % 64 - 128) * 64 + (128 + c.toNat % 64 - 128)
            = c.toNat := by omega
        rw [harith]
        rw [if_pos ⟨by omega, by unfold isScalarValue; omega⟩, Char.ofNat_toNat]
      · have he : utf8EncodeNat c.toNat
            = [240 + c.toNat / 262144, 128 + c.toNat / 4096 % 64,
               128 + c.toNat / 64 % 64, 128 + c.toNat % 64] := by
          unfold utf8EncodeNat
          rw [if_neg h1, if_neg h2, if_neg h3]
        rw [he]
        show utf8DecodeChar ((240 + c.toNat / 262144) :: (128 + c.toNat / 4096 % 64) ::
          (128 + c.toNat / 64 % 64) :: (128 + c.toNat % 64) :: rest) = _
        unfold utf8DecodeChar
        dsimp only
        rw [if_neg (by omega), if_neg (by omega), if_neg (by omega), if_neg (by omega),
          if_pos (by omega)]
        have hc : (isContByte (128 + c.toNat / 4096 % 64) &&
            isContByte (128 + c.toNat / 64 % 64) &&
            isContByte (128 + c.toNat % 64)) = true := by
          unfold isContByte
          simp only [Bool.and_eq_true, decide_eq_true_eq]
          omega
        rw [if_pos hc]
        have harith : (240 + c.toNat / 262144 - 240) * 262144 +
            (128 + c.toNat / 4096 % 64 - 128) * 4096 +
            (128 + c.toNat / 64 % 64 - 128) * 64 + (128 + c.toNat % 64 - 128)
            = c.toNat := by omega
        rw [harith]
        rw [if_pos ⟨by omega, by omega⟩, Char.ofNat_toNat]

theorem utf8DecodeLoop_encode (s : List Char) :
    ∀ fuel : Nat, (utf8Bytes s).length ≤ fuel →
      utf8DecodeLoop fuel (utf8Bytes s) = some s := by
  induction s with
  | nil =>
    intro fuel _
    cases fuel <;> rfl
  | cons c cs ih =>
    intro fuel hfuel
    have hsplit : utf8Bytes (c :: cs) = utf8EncodeNat c.toNat ++ utf8Bytes cs := rfl
    rcases he : utf8EncodeNat c.toNat with _ | ⟨b, tb⟩
    · exact absurd he (utf8EncodeNat_ne_nil c.toNat)
    · rw [hsplit, he] at hfuel ⊢
      cases fuel with
      | zero => simp at hfuel
      | succ fuel =>
        show utf8DecodeLoop (fuel + 1) (b :: (tb ++ utf8Bytes cs)) = _
        unfold utf8DecodeLoop
        have hchar : utf8DecodeChar (b :: (tb ++ utf8Bytes cs)) = some (c, utf8Bytes cs) := by
          have := utf8DecodeChar_encode c (utf8Bytes cs)
          rwa [he] at this
        rw [hchar]
        dsimp only
        rw [ih fuel (by simp at hfuel; omega)]
        rfl

theorem utf8Decode_utf8Bytes (s : List Char) : utf8Decode (utf8Bytes s) = some s :=
  utf8DecodeLoop_encode s _ le_rfl

theorem utf8EncodeNat_lt_256 (n : Nat) (hn : n < 1114112) :
    ∀ b ∈ utf8EncodeNat n, b < 256 := by
  intro b hb
  unfold utf8EncodeNat at hb
  split_ifs at hb <;> fin_cases hb <;> omega

theorem utf8Bytes_lt_256 (s : List Char) : ∀ b ∈ utf8Bytes s, b < 256 := by
  intro b hb
  unfold utf8Bytes at hb
  rcases List.mem_flatMap.1 hb with ⟨c, _, hbc⟩
  exact utf8EncodeNat_lt_256 _ (char_lt c) b hbc

/-! ## base64url round trip and alphabet facts -/

theorem b64Val_b64Char : ∀ v < 64, b64Val (b64Char v) = some v := by decide

theorem b64Char_ne_dot : ∀ v < 64, b64Char v ≠ '.' := by decide

theorem b64_encode_no_dot :
    ∀ l : List Nat, (∀ b ∈ l, b < 256) → ('.' : Char) ∉ b64urlEncodeBytes l
  | [], _ => by simp [b64urlEncodeBytes]
  | [b1], h => by
    have h1 : b1 < 256 := h b1 (by simp)
    show ('.' : Char) ∉ [b64Char (b1 / 4), b64Char (b1 % 4 * 16)]
    simp only [List.mem_cons, List.not_mem_nil, or_false]
    push_neg
    exact ⟨fun hc => b64Char_ne_dot _ (by omega) hc.symm,
      fun hc => b64Char_ne_dot _ (by omega) hc.symm⟩
  | [b1, b2], h => by
    have h1 : b1 < 256 := h b1 (by simp)
    have h2 : b2 < 256 := h b2 (by simp)
    show ('.' : Char) ∉ [b64Char (b1 / 4), b64Char (b1 % 4 * 16 + b2 / 16),
      b64Char (b2 % 16 * 4)]
    simp only [List.mem_cons, List.not_mem_nil, or_false]
    push_neg
    exact ⟨fun hc => b64Char_ne_dot _ (by omega) hc.symm,
      fun hc => b64Char_ne_dot _ (by omega) hc.symm,
      fun hc => b64Char_ne_dot _ (by omega) hc.symm⟩
  | b1 :: b2 :: b3 :: rest, h => by
    have h1 : b1 < 256 := h b1 (by simp)
    have h2 : b2 < 256 := h b2 (by simp)
    have h3 : b3 < 256 := h b3 (by simp)
    have hrest := b64_encode_no_dot rest (fun b hb => h b (by simp [hb]))
    show ('.' : Char) ∉ b64Char (b1 / 4) :: b64Char (b1 % 4 * 16 + b2 / 16) ::
      b64Char (b2 % 16 * 4 + b3 / 64) :: b64Char (b3 % 64) :: b64urlEncodeBytes rest
    simp only [List.mem_cons]
    push_neg
    exact ⟨fun hc => b64Char_ne_dot _ (by omega) hc.symm,
      fun hc => b64Char_ne_dot _ (by omega) hc.symm,
      fun hc => b64Char_ne_dot _ (by omega) hc.symm,
      fun hc => b64Char_ne_dot _ (by omega) hc.symm,
      hrest⟩

theorem b64_decode_encode :
    ∀ l : List Nat, (∀ b ∈ l, b < 256) →
      b64urlDecodeChars (b64urlEncodeBytes l) = some l
  | [], _ => rfl
  | [b1], h => by
    have h1 : b1 < 256 := h b1 (by simp)
    show b64urlDecodeChars [b64Char (b1 / 4), b64Char (b1 % 4 * 16)] = some [b1]
    unfold b64urlDecodeChars
    rw [b64Val_b64Char _ (by omega), b64Val_b64Char _ (by omega)]
    dsimp only
    have e1 : b1 / 4 * 4 + b1 % 4 * 16 / 16 = b1 := by omega
    rw [e1]
  | [b1, b2], h => by
    have h1 : b1 < 256 := h b1 (by simp)
    have h2 : b2 < 256 := h b2 (by simp)
    show b64urlDecodeChars [b64Char (b1 / 4), b64Char (b1 % 4 * 16 + b2 / 16),
      b64Char (b2 % 16 * 4)] = some [b1, b2]
    unfold b64urlDecodeChars
    rw [b64Val_b64Char _ (by omega), b64Val_b64Char _ (by omega),
      b64Val_b64Char _ (by omega)]
    dsimp only
    have e1 : b1 / 4 * 4 + (b1 % 4 * 16 + b2 / 16) / 16 = b1 := by omega
    have e2 : (b1 % 4 * 16 + b2 / 16) % 16 * 16 + b2 % 16 * 4 / 4 = b2 := by omega
    rw [e1, e2]
  | b1 :: b2 :: b3 :: rest, h => by
    have h1 : b1 < 256 := h b1 (by simp)
    have h2 : b2 < 256 := h b2 (by simp)
    have h3 : b3 < 256 := h b3 (by simp)
    have hrest := b64_decode_encode rest (fun b hb => h b (by simp [hb]))
    show b64urlDecodeChars (b64Char (b1 / 4) :: b64Char (b1 % 4 * 16 + b2 / 16) ::
      b64Char (b2 % 16 * 4 + b3 / 64) :: b64Char (b3 % 64) :: b64urlEncodeBytes rest)
      = some (b1 :: b2 :: b3 :: rest)
    unfold b64urlDecodeChars
    rw [b64Val_b64Char _ (by omega), b64Val_b64Char _ (by omega),
      b64Val_b64Char _ (by omega), b64Val_b64Char _ (by omega)]
    dsimp only
    rw [hrest]
    dsimp only
    have e1 : b1 / 4 * 4 + (b1 % 4 * 16 + b2 / 16) / 16 = b1 := by omega
    have e2 : (b1 % 4 * 16 + b2 / 16) % 16 * 16 + (b2 % 16 * 4 + b3 / 64) / 4 = b2 := by
      omega
    have e3 : (b2 % 16 * 4 + b3 / 64) % 4 * 64 + b3 % 64 = b3 := by omega
    rw [e1, e2, e3]

theorem b64_encode_inj {l1 l2 : List Nat} (h1 : ∀ b ∈ l1, b < 256)
    (h2 : ∀ b ∈ l2, b < 256) (he : b64urlEncodeBytes l1 = b64urlEncodeBytes l2) :
    l1 = l2 := by
  have hd := b64_decode_encode l1 h1
  rw [he, b64_decode_encode l2 h2] at hd
  exact (Option.some_injective _ hd).symm

theorem b64_encode_length :
    ∀ l : List Nat, (b64urlEncodeBytes l).length = (4 * l.length + 2) / 3
  | [] => rfl
  | [b1] => by
    show (2 : Nat) = (4 * 1 + 2) / 3
    rfl
  | [b1, b2] => by
    show (3 : Nat) = (4 * 2 + 2) / 3
    rfl
  | b1 :: b2 :: b3 :: rest => by
    show (b64Char (b1 / 4) :: b64Char (b1 % 4 * 16 + b2 / 16) ::
      b64Char (b2 % 16 * 4 + b3 / 64) :: b64Char (b3 % 64) ::
        b64urlEncodeBytes rest).length = _
    simp only [List.length_cons, b64_encode_length rest, List.length_cons]
    omega

/-! ## JSON round trip -/

theorem hexVal_toHexDigit : ∀ v < 16, hexVal (toHexDigit v) = some v := by decide

theorem parseStringLit_escaped :
    ∀ (s rest : List Char),
      parseStringLit (s.flatMap jsonEscapeChar ++ '"' :: rest) = some (s, rest)
  | [], rest => by
    show parseStringLit ('"' :: rest) = some ([], rest)
    unfold parseStringLit
    rw [if_pos rfl]
  | c :: cs, rest => by
    have ih := parseStringLit_escaped cs rest
    rw [show (c :: cs).flatMap jsonEscapeChar ++ '"' :: rest
        = jsonEscapeChar c ++ (cs.flatMap jsonEscapeChar ++ '"' :: rest) from by
      rw [List.flatMap_cons, List.append_assoc]]
    by_cases hq : c = '"'
    · subst hq
      show parseStringLit ('\\' :: '"' ::
        (cs.flatMap jsonEscapeChar ++ '"' :: rest)) = _
      unfold parseStringLit
      rw [if_neg (by decide), if_pos rfl]
      dsimp only
      rw [if_pos rfl, ih]
      rfl
    · by_cases hb : c = '\\'
      · subst hb
        show parseStringLit ('\\' :: '\\' ::
          (cs.flatMap jsonEscapeChar ++ '"' :: rest)) = _
        unfold parseStringLit
        rw [if_neg (by decide), if_pos rfl]
        dsimp only
        rw [if_neg (by decide), if_pos rfl, ih]
        rfl
      · by_cases hctrl : c.toNat < 32
        · have hesc : jsonEscapeChar c =
              if c.toNat = 8 then ['\\', 'b']
              else if c.toNat = 9 then ['\\', 't']
              else if c.toNat = 10 then ['\\', 'n']
              else if c.toNat = 12 then ['\\', 'f']
              else if c.toNat = 13 then ['\\', 'r']
              else ['\\', 'u', '0', '0', toHexDigit (c.toNat / 16),
                toHexDigit (c.toNat % 16)] := by
            unfold jsonEscapeChar
            rw [if_neg hq, if_neg hb, if_pos hctrl]
          have hofn : ∀ k : Nat, c.toNat = k → Char.ofNat k = c := by
            intro k hk
            rw [← hk]
            exact Char.ofNat_toNat c
          by_cases h8 : c.toNat = 8
          · rw [hesc, if_pos h8]
            show parseStringLit ('\\' :: 'b' ::
              (cs.flatMap jsonEscapeChar ++ '"' :: rest)) = _
            unfold parseStringLit
            rw [if_neg (by decide), if_pos rfl]
            dsimp only
            rw [if_neg (by decide), if_neg (by decide), if_neg (by decide),
              if_pos rfl, ih]
            rw [hofn 8 h8]
            rfl
          · by_cases h9 : c.toNat = 9
            · rw [hesc, if_neg h8, if_pos h9]
              show parseStringLit ('\\' :: 't' ::
                (cs.flatMap jsonEscapeChar ++ '"' :: rest)) = _
              unfold parseStringLit
              rw [if_neg (by decide), if_pos rfl]
              dsimp only
              rw [if_neg (by decide), if_neg (by decide), if_neg (by decide),
                if_neg (by decide), if_pos rfl, ih]
              rw [hofn 9 h9]
              rfl
            · by_cases h10 : c.toNat = 10
              · rw [hesc, if_neg h8, if_neg h9, if_pos h10]
                show parseStringLit ('\\' :: 'n' ::
                  (cs.flatMap jsonEscapeChar ++ '"' :: rest)) = _
                unfold parseStringLit
                rw [if_neg (by decide), if_pos rfl]
                dsimp only
                rw [if_neg (by decide), if_neg (by decide), if_neg (by decide),
                  if_neg (by decide), if_neg (by decide), if_pos rfl, ih]
                rw [hofn 10 h10]
                rfl
              · by_cases h12 : c.toNat = 12
                · rw [hesc, if_neg h8, if_neg h9, if_neg h10, if_pos h12]
                  show parseStringLit ('\\' :: 'f' ::
                    (cs.flatMap jsonEscapeChar ++ '"' :: rest)) = _
                  unfold parseStringLit
                  rw [if_neg (by decide), if_pos rfl]
                  dsimp only
                  rw [if_neg (by decide), if_neg (by decide), if_neg (by decide),
                    if_neg (by decide), if_neg (by decide), if_neg (by decide),
                    if_pos rfl, ih]
                  rw [hofn 12 h12]
                  rfl
                · by_cases h13 : c.toNat = 13
                  · rw [hesc, if_neg h8, if_neg h9, if_neg h10, if_neg h12, if_pos h13]
                    show parseStringLit ('\\' :: 'r' ::
                      (cs.flatMap jsonEscapeChar ++ '"' :: rest)) = _
                    unfold parseStringLit
                    rw [if_neg (by decide), if_pos rfl]
                    dsimp only
                    rw [if_neg (by decide), if_neg (by decide), if_neg (by decide),
                      if_neg (by decide), if_neg (by decide), if_neg (by decide),
                      if_neg (by decide), if_pos rfl, ih]
                    rw [hofn 13 h13]
                    rfl
                  · rw [hesc, if_neg h8, if_neg h9, if_neg h10, if_neg h12, if_neg h13]
                    show parseStringLit ('\\' :: 'u' :: '0' :: '0' ::
                      toHexDigit (c.toNat / 16) :: toHexDigit (c.toNat % 16) ::
                      (cs.flatMap jsonEscapeChar ++ '"' :: rest)) = _
                    unfold parseStringLit
                    rw [if_neg (by decide), if_pos rfl]
                    dsimp only
                    rw [if_neg (by decide), if_neg (by decide), if_neg (by decide),
                      if_neg (by decide), if_neg (by decide), if_neg (by decide),
                      if_neg (by decide), if_neg (by decide), if_pos rfl]
                    rw [show hexVal '0' = some 0 from rfl,
                      hexVal_toHexDigit (c.toNat / 16) (by omega),
                      hexVal_toHexDigit (c.toNat % 16) (by omega)]
                    dsimp only
                    have harith : 0 * 4096 + 0 * 256 + c.toNat / 16 * 16 + c.toNat % 16
                        = c.toNat := by omega
                    rw [harith, if_pos (char_scalar c), ih, Char.ofNat_toNat]
                    rfl
        · have hesc : jsonEscapeChar c = [c] := by
            unfold jsonEscapeChar
            rw [if_neg hq, if_neg hb, if_neg hctrl]
          rw [hesc]
          show parseStringLit (c ::
            (cs.flatMap jsonEscapeChar ++ '"' :: rest)) = _
          unfold parseStringLit
          rw [if_neg hq, if_neg hb, ih]
          rfl

theorem parseScalar_str (value rest : List Char) :
    parseScalar (jsonQuote value ++ rest) = some (.str value, rest) := by
  have hshape : jsonQuote value ++ rest
      = '"' :: (value.flatMap jsonEscapeChar ++ '"' :: rest) := by
    unfold jsonQuote
    simp
  rw [hshape]
  unfold parseScalar
  dsimp only
  rw [if_pos rfl, parseStringLit_escaped]
  rfl

theorem isDigitChar_digitChar : ∀ d < 10, isDigitChar (digitChar d) = true := by decide

theorem natToCharsAux_digits :
    ∀ fuel n : Nat, ∀ c ∈ natToCharsAux fuel n, isDigitChar c = true := by
  intro fuel
  induction fuel with
  | zero => intro n c hc; cases hc
  | succ fuel ih =>
    intro n c hc
    unfold natToCharsAux at hc
    split_ifs at hc with h
    · rw [List.mem_singleton] at hc
      subst hc
      exact isDigitChar_digitChar n h
    · rcases List.mem_append.1 hc with hc | hc
      · exact ih _ c hc
      · rw [List.mem_singleton] at hc
        subst hc
        exact isDigitChar_digitChar _ (by omega)

theorem natToChars_digits (n : Nat) : ∀ c ∈ natToChars n, isDigitChar c = true :=
  natToCharsAux_digits (n + 1) n

theorem natToChars_ne_nil (n : Nat) : natToChars n ≠ [] := by
  unfold natToChars natToCharsAux
  split_ifs <;> simp

theorem takeWhile_append_stop (p : Char → Bool) :
    ∀ ds : List Char, (∀ c ∈ ds, p c = true) → ∀ (x : Char) (rest : List Char),
      p x = false →
      (ds ++ x :: rest).takeWhile p = ds ∧ (ds ++ x :: rest).dropWhile p = x :: rest := by
  intro ds
  induction ds with
  | nil =>
    intro _ x rest hx
    constructor
    · show (x :: rest).takeWhile p = []
      simp [List.takeWhile_cons, hx]
    · show (x :: rest).dropWhile p = x :: rest
      simp [List.dropWhile_cons, hx]
  | cons d ds ih =>
    intro hds x rest hx
    have hd : p d = true := hds d (List.mem_cons_self d ds)
    have := ih (fun c hc => hds c (List.mem_cons_of_mem d hc)) x rest hx
    constructor
    · show ((d :: (ds ++ x :: rest)).takeWhile p) = d :: ds
      simp [List.takeWhile_cons, hd, this.1]
    · show ((d :: (ds ++ x :: rest)).dropWhile p) = x :: rest
      simp [List.dropWhile_cons, hd, this.2]

theorem parseScalar_num (n : Nat) (x : Char) (rest : List Char)
    (hx : isDigitChar x = false) :
    parseScalar (natToChars n ++ x :: rest)
      = some (.num (natToChars n), x :: rest) := by
  rcases hcons : natToChars n with _ | ⟨d, ds⟩
  · exact absurd hcons (natToChars_ne_nil n)
  · have hall := natToChars_digits n
    rw [hcons] at hall
    have hd : isDigitChar d = true := hall d (List.mem_cons_self d ds)
    have hds : ∀ c ∈ ds, isDigitChar c = true :=
      fun c hc => hall c (List.mem_cons_of_mem d hc)
    show parseScalar (d :: (ds ++ x :: rest)) = _
    unfold parseScalar
    dsimp only
    rw [if_neg (by
      intro hdq
      rw [hdq] at hd
      exact absurd hd (by decide))]
    rw [if_pos hd]
    have htw := takeWhile_append_stop isDigitChar ds hds x rest hx
    rw [htw.1, htw.2]

theorem jsonStrMember_cons (k v r : List Char) :
    jsonStrMember k v r
      = '"' :: (k.flatMap jsonEscapeChar ++ '"' :: (':' :: (jsonQuote v ++ r))) := by
  unfold jsonStrMember jsonQuote
  simp

theorem parseMembers_cons_str (fuel : Nat) (key value more : List Char) :
    parseMembers (fuel + 1) (jsonStrMember key value (',' :: more))
      = (parseMembers fuel more).map
          (fun p => ((key, JsonScalar.str value) :: p.1, p.2)) := by
  rw [jsonStrMember_cons]
  conv_lhs => unfold parseMembers
  dsimp only
  rw [if_pos rfl, parseStringLit_escaped]
  dsimp only
  rw [if_pos rfl, parseScalar_str]
  dsimp only
  rw [if_pos rfl]
  cases hp : parseMembers fuel more with
  | none => rfl
  | some p => rfl

theorem parseMembers_last_num (fuel : Nat) (key : List Char) (n : Nat) :
    parseMembers (fuel + 1) (jsonQuote key ++ ':' :: natToChars n ++ [rbrace])
      = some ([(key, JsonScalar.num (natToChars n))], []) := by
  have hshape : jsonQuote key ++ ':' :: natToChars n ++ [rbrace]
      = '"' :: (key.flatMap jsonEscapeChar ++ '"' ::
          (':' :: (natToChars n ++ rbrace :: []))) := by
    unfold jsonQuote
    simp
  rw [hshape]
  conv_lhs => unfold parseMembers
  dsimp only
  rw [if_pos rfl, parseStringLit_escaped]
  dsimp only
  rw [if_pos rfl, parseScalar_num n rbrace [] (by decide)]
  dsimp only
  rw [if_neg (by decide), if_pos rfl]

theorem parseFlatObject_stringify (sd : SessionData) (iat : Nat) :
    parseFlatObject (stringifyPayload sd iat)
      = some [(['u'], .str sd.username.data), (['a'], .str sd.avatar_url.data),
              (['t'], .str sd.access_token.data),
              (['s'], .str sd.access_token_secret.data),
              (['i', 'a', 't'], .num (natToChars iat))] := by
  unfold stringifyPayload parseFlatObject
  rw [jsonStrMember_cons]
  dsimp only
  rw [if_pos rfl, if_neg (by decide)]
  rw [← jsonStrMember_cons]
  have hfive : ∀ T : List Char, 4 ≤ T.length →
      (lbrace :: T).length = ((lbrace :: T).length - 5) + 5 := by
    intro T hT
    simp only [List.length_cons]
    omega
  have hTlen : 4 ≤ (jsonStrMember ['u'] sd.username.data (',' ::
      jsonStrMember ['a'] sd.avatar_url.data (',' ::
        jsonStrMember ['t'] sd.access_token.data (',' ::
          jsonStrMember ['s'] sd.access_token_secret.data (',' ::
            (jsonQuote ['i', 'a', 't'] ++ ':' :: natToChars iat ++ [rbrace])))))).length := by
    simp [jsonStrMember, jsonQuote]
    omega
  rw [hfive _ hTlen]
  have e4 : ∀ m : Nat, m + 5 = m + 4 + 1 := fun m => by omega
  have e3 : ∀ m : Nat, m + 4 = m + 3 + 1 := fun m => by omega
  have e2 : ∀ m : Nat, m + 3 = m + 2 + 1 := fun m => by omega
  have e1 : ∀ m : Nat, m + 2 = m + 1 + 1 := fun m => by omega
  rw [e4 _, parseMembers_cons_str, e3 _, parseMembers_cons_str, e2 _,
    parseMembers_cons_str, e1 _, parseMembers_cons_str, parseMembers_last_num]
  rfl

theorem parsePayload_stringify (sd : SessionData) (iat : Nat) :
    parsePayload (stringifyPayload sd iat)
      = some ⟨some sd.username.data, some sd.avatar_url.data,
          some sd.access_token.data, some sd.access_token_secret.data⟩ := by
  unfold parsePayload
  rw [parseFlatObject_stringify]
  rfl

/-! ## Splitting at the last dot, and string helpers -/

theorem splitLastDot_eq_none {l : List Char} (h : ('.' : Char) ∉ l) :
    splitLastDot l = none := by
  induction l with
  | nil => rfl
  | cons c rest ih =>
    unfold splitLastDot
    rw [ih (fun hc => h (List.mem_cons_of_mem c hc))]
    dsimp only
    rw [if_neg (fun hc => h (by rw [hc]; exact List.mem_cons_self _ _))]

theorem splitLastDot_append {sig : List Char} (h : ('.' : Char) ∉ sig) :
    ∀ p : List Char, splitLastDot (p ++ '.' :: sig) = some (p, sig) := by
  intro p
  induction p with
  | nil =>
    show splitLastDot ('.' :: sig) = _
    unfold splitLastDot
    rw [splitLastDot_eq_none h]
    dsimp only
    rw [if_pos rfl]
  | cons c cp ih =>
    show splitLastDot (c :: (cp ++ '.' :: sig)) = _
    unfold splitLastDot
    rw [ih]

theorem string_data_eq {a b : String} (h : a.data = b.data) : a = b := by
  cases a
  cases b
  simp only at h
  rw [h]

theorem string_data_ne_nil {s : String} (h : s ≠ "") : s.data ≠ [] := by
  intro hnil
  apply h
  cases s
  simp only at hnil
  rw [hnil]

/-! ## Claim theorems -/

/-- C3: syncing the same provider snapshot twice yields the same rows with
the same `added_at` for every item — a second `syncCatalog` run against the
same provider leaves the table it produced exactly unchanged, whatever
timestamp it observes; re-syncing an item whose title changed rewrites that
row in place through `applyUpdate`, which overwrites every non-key field
except `added_at`. -/
theorem spec_C3_sync_idempotent_addedAt_preserved
    (now now₂ : Nat) (items : List NormItem) (db : List RecordRow) :
    (∀ (fetchPage : Nat → PageResponse) (fuel : Nat) (username : String)
      (db₀ db₁ r₁ : List RecordRow),
      syncCatalog fetchPage fuel username now db₀ = some ⟨db₁, .ok r₁⟩ →
      syncCatalog fetchPage fuel username now₂ db₁
        = some ⟨db₁, .ok (selectUserRecords username db₁)⟩) ∧
    batchUpsert now₂ (batchUpsert now db items) items = batchUpsert now db items ∧
    ((batchUpsert now db items).take db.length).map RecordRow.added_at
      = db.map RecordRow.added_at ∧
    (∀ r : NormItem, itemKey r ∈ keysOf db →
      batchUpsert now db [r] = db.map (owIfMatch r)) ∧
    (∀ (r : NormItem) (row : RecordRow), rowKeyMatches r row = true →
      owIfMatch r row = applyUpdate r row ∧
      (owIfMatch r row).title = r.title ∧
      (owIfMatch r row).added_at = row.added_at) := by
  refine ⟨?_, batchUpsert_idempotent now now₂ items db, ?_, ?_, ?_⟩
  · intro fetchPage fuel username db₀ db₁ r₁ h
    revert h
    unfold syncCatalog
    cases hf : fetchAllPages fetchPage fuel 1 [] with
    | none => intro h; cases h
    | some res =>
      cases res with
      | error s =>
        dsimp only
        intro h
        simp at h
      | ok items₀ =>
        dsimp only
        cases hm : mapNormalize username items₀ with
        | error e =>
          dsimp only
          intro h
          simp at h
        | ok releases =>
          dsimp only
          intro h
          simp only [Option.some.injEq] at h
          have hdb : db₁ = batchUpsert now db₀ releases :=
            (congrArg SyncOutcome.db h).symm
          subst hdb
          rw [batchUpsert_idempotent]
  · rw [batchUpsert_take, List.map_map]
    exact List.map_congr_left fun row _ => addedAt_netUpdate items row
  · intro r h
    show upsertRecord now db r = db.map (owIfMatch r)
    exact upsert_eq_update h
  · intro r row h
    have how : owIfMatch r row = applyUpdate r row := by
      unfold owIfMatch
      rw [if_pos h]
    refine ⟨how, ?_, ?_⟩
    · rw [how]; rfl
    · rw [how, addedAt_applyUpdate]


theorem spec_C3_witness :
    (syncCatalog wFetchEmpty 2 "alice" 9 [wRow]
      = some ⟨[wRow], .ok (selectUserRecords "alice" [wRow])⟩) ∧
    (batchUpsert 9 (batchUpsert 7 [] [wItem]) [wItem] = batchUpsert 7 [] [wItem]) ∧
    (batchUpsert 8 [wRow] [wItemRetitled] = [wRow].map (owIfMatch wItemRetitled)) ∧
    (owIfMatch wItemRetitled wRow).title = wItemRetitled.title ∧
    (owIfMatch wItemRetitled wRow).added_at = wRow.added_at :=
  ⟨(spec_C3_sync_idempotent_addedAt_preserved 7 9 [wItem] []).1 wFetchEmpty 2 "alice"
     [wRow] [wRow] (selectUserRecords "alice" [wRow]) rfl,
   (spec_C3_sync_idempotent_addedAt_preserved 7 9 [wItem] []).2.1,
   (spec_C3_sync_idempotent_addedAt_preserved 8 8 [] [wRow]).2.2.2.1 wItemRetitled
     (by decide),
   ((spec_C3_sync_idempotent_addedAt_preserved 8 8 [] [wRow]).2.2.2.2 wItemRetitled wRow
     (by decide)).2.1,
   ((spec_C3_sync_idempotent_addedAt_preserved 8 8 [] [wRow]).2.2.2.2 wItemRetitled wRow
     (by decide)).2.2⟩

/-- C4: starting from any table satisfying the `(username, discogs_id)`
uniqueness invariant, any sequence of sync merges preserves the invariant
(so no owner ever holds two rows with the same `discogs_id`), never drops an
existing row's key (so rows of other owners with the same `discogs_id`
persist), and leaves every synced item's `(owner, discogs_id)` key present. -/
theorem spec_C4_multitenant_uniqueness
    (batches : List (Nat × List NormItem)) (db : List RecordRow)
    (hnd : KeysNodup db) :
    KeysNodup (syncSeq batches db) ∧
    (∀ k ∈ keysOf db, k ∈ keysOf (syncSeq batches db)) ∧
    (∀ b ∈ batches, ∀ r ∈ b.2, itemKey r ∈ keysOf (syncSeq batches db)) :=
  ⟨keysNodup_syncSeq hnd,
   fun k hk => keysOf_syncSeq_superset k hk,
   fun b hb r hr => itemKeys_mem_syncSeq b hb r hr⟩

theorem spec_C4_witness :
    KeysNodup (syncSeq [(5, [wItem]), (6, [wItemB])] []) ∧
    itemKey wItem ∈ keysOf (syncSeq [(5, [wItem]), (6, [wItemB])] []) ∧
    itemKey wItemB ∈ keysOf (syncSeq [(5, [wItem]), (6, [wItemB])] []) :=
  ⟨(spec_C4_multitenant_uniqueness [(5, [wItem]), (6, [wItemB])] []
      (by unfold KeysNodup keysOf; simp)).1,
   (spec_C4_multitenant_uniqueness [(5, [wItem]), (6, [wItemB])] []
      (by unfold KeysNodup keysOf; simp)).2.2 (5, [wItem]) (by simp) wItem (by simp),
   (spec_C4_multitenant_uniqueness [(5, [wItem]), (6, [wItemB])] []
      (by unfold KeysNodup keysOf; simp)).2.2 (6, [wItemB]) (by simp) wItemB (by simp)⟩

/-- C5: the catalog read, the aggregate read, `recordPlay` and
`setPlayCount` all read only rows of the resolved owner (their result is
unchanged if every other owner's rows are removed first), and the two
mutating operations leave every other owner's play rows untouched and add
rows only for the resolved owner. -/
theorem spec_C5_ownership_scoping (owner id : String) (db : List RecordRow)
    (plays : List PlayRow) (cnt : Option Int) (now : Nat) :
    (∀ row ∈ selectUserRecords owner db, row.username = owner) ∧
    (selectUserRecords owner (db.filter (fun row => row.username == owner))
      = selectUserRecords owner db) ∧
    (listAggregates owner (plays.filter (fun p => p.username == owner))
      = listAggregates owner plays) ∧
    ((recordPlay owner id now plays).1.filter (fun p => !(p.username == owner))
      = plays.filter (fun p => !(p.username == owner))) ∧
    ((setPlayCount owner id cnt now plays).1.filter (fun p => !(p.username == owner))
      = plays.filter (fun p => !(p.username == owner))) ∧
    (∀ p ∈ (recordPlay owner id now plays).1, p ∈ plays ∨ p.username = owner) ∧
    (∀ p ∈ (setPlayCount owner id cnt now plays).1, p ∈ plays ∨ p.username = owner) := by
  refine ⟨?_, ?_, ?_, ?_, ?_, ?_, ?_⟩
  · intro row hrow
    have hmem := List.mem_mergeSort.1 hrow
    exact beq_iff_eq.1 (List.mem_filter.1 hmem).2
  · unfold selectUserRecords
    rw [filter_username_idem_records]
  · unfold listAggregates
    rw [filter_username_idem]
    refine List.map_congr_left fun i _ => ?_
    simp only [aggregateFor, playsFor_filter_username]
  · simp only [recordPlay]
    rw [List.filter_append]
    simp
  · simp only [setPlayCount]
    by_cases hn : clampCount cnt > 0
    · rw [if_pos hn, List.filter_append]
      have hrep : (List.replicate (clampCount cnt)
          (⟨owner, id, now⟩ : PlayRow)).filter (fun p => !(p.username == owner))
            = [] := by
        simp [List.filter_replicate]
      rw [hrep, List.append_nil, List.filter_filter]
      exact List.filter_congr fun p _ => by cases hu : p.username == owner <;> simp [hu]
    · rw [if_neg hn, List.filter_filter]
      exact List.filter_congr fun p _ => by cases hu : p.username == owner <;> simp [hu]
  · intro p hp
    simp only [recordPlay] at hp
    rcases List.mem_append.1 hp with hin | hone
    · exact Or.inl hin
    · right
      rw [List.mem_singleton.1 hone]
  · intro p hp
    simp only [setPlayCount] at hp
    by_cases hn : clampCount cnt > 0
    · rw [if_pos hn] at hp
      rcases List.mem_append.1 hp with hin | hrep
      · exact Or.inl (List.mem_filter.1 hin).1
      · right
        rw [List.eq_of_mem_replicate hrep]
    · rw [if_neg hn] at hp
      exact Or.inl (List.mem_filter.1 hp).1

theorem spec_C5_witness :
    (∀ p ∈ (recordPlay "alice" "100" 5 []).1, p ∈ ([] : List PlayRow) ∨
      p.username = "alice") ∧
    ((setPlayCount "bob" "100" (some 2) 9
        [⟨"alice", "100", 1⟩]).1.filter (fun p => !(p.username == "bob"))
      = ([⟨"alice", "100", 1⟩] : List PlayRow).filter (fun p => !(p.username == "bob"))) :=
  ⟨(spec_C5_ownership_scoping "alice" "100" [] [] none 5).2.2.2.2.2.1,
   (spec_C5_ownership_scoping "bob" "100" [] [⟨"alice", "100", 1⟩] (some 2) 9).2.2.2.2.1⟩

/-- C6: `setPlayCount` clamps the requested count to `[0, 9999]` (coercing a
non-numeric body to 0), replaces the owner-item pair's entire history with
exactly `clamp(n)` rows all stamped with the current time, and answers
`{play_count: clamp(n), last_played: now if clamp(n) > 0 else none}` —
regardless of prior history. -/
theorem spec_C6_set_play_count_reconciliation (owner id : String)
    (cnt : Option Int) (now : Nat) (plays : List PlayRow) :
    playsFor owner id (setPlayCount owner id cnt now plays).1
      = List.replicate (clampCount cnt) ⟨owner, id, now⟩ ∧
    (playsFor owner id (setPlayCount owner id cnt now plays).1).length
      = clampCount cnt ∧
    (setPlayCount owner id cnt now plays).2
      = ⟨id, clampCount cnt, if clampCount cnt > 0 then some now else none⟩ ∧
    clampCount cnt ≤ 9999 ∧
    clampCount (some 50000) = 9999 ∧ clampCount (some 0) = 0 ∧ clampCount none = 0 := by
  have hbody : playsFor owner id (setPlayCount owner id cnt now plays).1
      = List.replicate (clampCount cnt) ⟨owner, id, now⟩ := by
    simp only [setPlayCount]
    by_cases hn : clampCount cnt > 0
    · rw [if_pos hn]
      unfold playsFor
      rw [List.filter_append]
      have h1 := playsFor_delete owner id plays
      unfold playsFor at h1
      rw [h1]
      have h2 := playsFor_replicate owner id now (clampCount cnt)
      unfold playsFor at h2
      rw [h2, List.nil_append]
    · rw [if_neg hn]
      have h0 : clampCount cnt = 0 := by omega
      rw [h0, List.replicate_zero]
      exact playsFor_delete owner id plays
  have hclamp : clampCount cnt ≤ 9999 := by
    cases cnt with
    | none => decide
    | some n =>
      unfold clampCount
      simp only [Option.getD_some]
      omega
  exact ⟨hbody, by rw [hbody, List.length_replicate], rfl, hclamp, by decide, by decide,
    by decide⟩

theorem spec_C6_witness :
    playsFor "alice" "100" (setPlayCount "alice" "100" (some 50000) 9
        [⟨"alice", "100", 1⟩, ⟨"alice", "100", 2⟩, ⟨"bob", "100", 3⟩]).1
      = List.replicate 9999 ⟨"alice", "100", 9⟩ ∧
    (setPlayCount "alice" "100" (some 0) 9 [⟨"alice", "100", 1⟩]).2
      = ⟨"100", 0, none⟩ ∧
    clampCount (some 50000) = 9999 :=
  ⟨by
    have h := (spec_C6_set_play_count_reconciliation "alice" "100" (some 50000) 9
      [⟨"alice", "100", 1⟩, ⟨"alice", "100", 2⟩, ⟨"bob", "100", 3⟩]).1
    rw [show clampCount (some 50000) = 9999 from by decide] at h
    exact h,
   by
    have h := (spec_C6_set_play_count_reconciliation "alice" "100" (some 0) 9
      [⟨"alice", "100", 1⟩]).2.2.1
    rw [show clampCount (some 0) = 0 from by decide] at h
    exact h.trans (by decide),
   (spec_C6_set_play_count_reconciliation "a" "b" none 0 []).2.2.2.2.1⟩

/-- C7: running the schema migrator on a legacy single-tenant `records`
table with `N` rows produces the multi-tenant table with exactly those `N`
rows, each carrying `username = ''` and every other column value copied
unchanged, and the `(username, discogs_id)` uniqueness invariant holds and
is preserved by all later merges. -/
theorem spec_C7_migration_preserves_rows (rows : List LegacyRecordRow) :
    ensureRecordsSchema (.legacy rows) = .current (rows.map migrateLegacyRow) ∧
    (rows.map migrateLegacyRow).length = rows.length ∧
    (∀ r : LegacyRecordRow,
      (migrateLegacyRow r).username = "" ∧
      (migrateLegacyRow r).discogs_id = r.discogs_id ∧
      (migrateLegacyRow r).title = r.title ∧
      (migrateLegacyRow r).artist = r.artist ∧
      (migrateLegacyRow r).cover_url = r.cover_url ∧
      (migrateLegacyRow r).added_at = r.added_at ∧
      (migrateLegacyRow r).genres = r.genres ∧
      (migrateLegacyRow r).styles = r.styles ∧
      (migrateLegacyRow r).year = r.year ∧
      (migrateLegacyRow r).label = r.label ∧
      (migrateLegacyRow r).format = r.format) ∧
    ((rows.map LegacyRecordRow.discogs_id).Nodup →
      KeysNodup (rows.map migrateLegacyRow)) ∧
    (∀ (now : Nat) (items : List NormItem) (db : List RecordRow),
      KeysNodup db → KeysNodup (batchUpsert now db items)) := by
  refine ⟨rfl, List.length_map rows _, fun r => ⟨rfl, rfl, rfl, rfl, rfl, rfl, rfl,
    rfl, rfl, rfl, rfl⟩, ?_, fun now items db h => keysNodup_batch h⟩
  intro hnd
  unfold KeysNodup keysOf
  rw [List.map_map]
  have : (rows.map (rowKey ∘ migrateLegacyRow))
      = (rows.map LegacyRecordRow.discogs_id).map (fun d => ("", d)) := by
    rw [List.map_map]
    exact List.map_congr_left fun r _ => rfl
  rw [this]
  exact hnd.map fun a b hab => by simpa using hab

theorem spec_C7_witness :
    ensureRecordsSchema (.legacy [wLegacy]) = .current ([wLegacy].map migrateLegacyRow) ∧
    (migrateLegacyRow wLegacy).username = "" ∧
    (migrateLegacyRow wLegacy).added_at = wLegacy.added_at ∧
    KeysNodup ([wLegacy].map migrateLegacyRow) :=
  ⟨(spec_C7_migration_preserves_rows [wLegacy]).1,
   ((spec_C7_migration_preserves_rows [wLegacy]).2.2.1 wLegacy).1,
   ((spec_C7_migration_preserves_rows [wLegacy]).2.2.1 wLegacy).2.2.2.2.2.1,
   (spec_C7_migration_preserves_rows [wLegacy]).2.2.2.1 (by simp)⟩

/-- C8: if any page request of the pagination loop answers a non-success
status (all earlier pages succeeding and advertising at least that many
pages), the sync aborts with exactly that page's status and the records
table is byte-for-byte unchanged; more generally every error outcome of the
sync leaves the table unchanged, because normalization and the single
batched write run only after the loop completes. -/
theorem spec_C8_sync_atomic_on_page_failure
    (fetchPage : Nat → PageResponse) (fuel : Nat) (username : String) (now : Nat)
    (db : List RecordRow) (failPage status : Nat)
    (hfail : fetchPage failPage = .failure status)
    (hok : ∀ p, 1 ≤ p → p < failPage →
      ∃ rel tp, fetchPage p = .success rel tp ∧ failPage ≤ tp)
    (h1 : 1 ≤ failPage) (hfuel : failPage ≤ fuel) :
    syncCatalog fetchPage fuel username now db
      = some ⟨db, .error (.apiError status)⟩ ∧
    (∀ (fp : Nat → PageResponse) (fuel' : Nat) (o : SyncOutcome) (e : SyncError),
      syncCatalog fp fuel' username now db = some o → o.result = .error e →
      o.db = db) := by
  constructor
  · unfold syncCatalog
    rw [fetchAllPages_abort hfail hok fuel 1 [] (by omega) h1 (by omega)]
  · intro fp fuel' o e h he
    exact syncCatalog_error_preserves_db fp fuel' username now db o e h he

theorem spec_C8_witness :
    syncCatalog wFetchFail 5 "alice" 0 [wRow]
      = some ⟨[wRow], .error (.apiError 503)⟩ :=
  (spec_C8_sync_atomic_on_page_failure wFetchFail 5 "alice" 0 [wRow] 2 503 rfl
    (by
      intro p hp1 hp2
      have hp : p = 1 := by omega
      subst hp
      exact ⟨[], 3, rfl, by omega⟩)
    (by omega) (by omega)).1

/-- C10: normalization is partial in `artists`: an item whose
`basic_information` lacks the `artists` array makes the normalizer throw
(indexing `[0]` on `undefined`), and if such an item appears in a fully
fetched snapshot the whole sync aborts with an unhandled error and no write;
`'Unknown'` is used only when `artists` is present but empty (a present
non-empty array contributes its first name), while missing `labels`,
`formats`, `genres` and `styles` are each defaulted. -/
theorem spec_C10_normalization_partial_in_artists (u : String) :
    (∀ item : ReleaseItem, item.basic_information.artists = none →
      normalizeItem u item = .error ()) ∧
    (∀ item : ReleaseItem, item.basic_information.artists = some [] →
      ∃ r, normalizeItem u item = .ok r ∧ r.artist = "Unknown") ∧
    (∀ (item : ReleaseItem) (a : ArtistRef) (rest : List ArtistRef),
      item.basic_information.artists = some (a :: rest) →
      ∃ r, normalizeItem u item = .ok r ∧ r.artist = a.name) ∧
    (∀ (item : ReleaseItem) (arts : List ArtistRef),
      item.basic_information.artists = some arts →
      ∃ r, normalizeItem u item = .ok r ∧
        (item.basic_information.labels = none → r.label = none) ∧
        (item.basic_information.formats = none → r.format = none) ∧
        (item.basic_information.genres = none → r.genres = "[]") ∧
        (item.basic_information.styles = none → r.styles = "[]")) ∧
    (∀ (fetchPage : Nat → PageResponse) (fuel now : Nat) (db : List RecordRow)
      (items : List ReleaseItem) (item : ReleaseItem),
      fetchAllPages fetchPage fuel 1 [] = some (.ok items) →
      item ∈ items → item.basic_information.artists = none →
      syncCatalog fetchPage fuel u now db
        = some ⟨db, .error .normalizationThrow⟩) := by
  refine ⟨?_, ?_, ?_, ?_, ?_⟩
  · intro item h
    unfold normalizeItem
    rw [h]
  · intro item h
    unfold normalizeItem
    rw [h]
    exact ⟨_, rfl, rfl⟩
  · intro item a rest h
    unfold normalizeItem
    rw [h]
    exact ⟨_, rfl, rfl⟩
  · intro item arts h
    unfold normalizeItem
    rw [h]
    refine ⟨_, rfl, ?_, ?_, ?_, ?_⟩ <;> intro hmiss <;> rw [hmiss] <;> rfl
  · intro fetchPage fuel now db items item hfetch hmem hart
    have herr : normalizeItem u item = .error () := by
      unfold normalizeItem
      rw [hart]
    unfold syncCatalog
    rw [hfetch]
    dsimp only
    rw [mapNormalize_error hmem herr]

theorem spec_C10_witness :
    normalizeItem "alice" wBadItem = .error () ∧
    syncCatalog wFetchBad 2 "alice" 0 [wRow]
      = some ⟨[wRow], .error .normalizationThrow⟩ :=
  ⟨(spec_C10_normalization_partial_in_artists "alice").1 wBadItem rfl,
   (spec_C10_normalization_partial_in_artists "alice").2.2.2.2 wFetchBad 2 0 [wRow]
     [wBadItem] wBadItem rfl (List.mem_singleton.2 rfl) rfl⟩

/-- C1: verifying a token produced by issuance recovers exactly the signed
identity, for every identity with non-empty `username`, `access_token` and
`access_token_secret` (the digest function is arbitrary as long as it emits
bytes, as SHA-256 does — the verifier recomputes the same digest over the
same payload). -/
theorem spec_C1_token_roundtrip (hmac : String → List Char → List Nat)
    (secret : String) (iat : Nat) (sd : SessionData)
    (hdig : ∀ m : List Char, ∀ b ∈ hmac secret m, b < 256)
    (hu : sd.username ≠ "") (ht : sd.access_token ≠ "")
    (hs : sd.access_token_secret ≠ "") :
    verifyMobileToken hmac secret (createMobileToken hmac secret iat sd)
      = some sd := by
  have hsigdot : ('.' : Char) ∉ b64urlEncodeBytes (hmac secret
      (b64urlEncodeBytes (utf8Bytes (stringifyPayload sd iat)))) :=
    b64_encode_no_dot _ (hdig _)
  show verifyMobileToken hmac secret
    (b64urlEncodeBytes (utf8Bytes (stringifyPayload sd iat)) ++ '.' ::
      b64urlEncodeBytes (hmac secret
        (b64urlEncodeBytes (utf8Bytes (stringifyPayload sd iat))))) = some sd
  unfold verifyMobileToken
  rw [splitLastDot_append hsigdot]
  dsimp only
  rw [if_pos rfl, b64_decode_encode _ (utf8Bytes_lt_256 _)]
  dsimp only
  rw [utf8Decode_utf8Bytes]
  dsimp only
  rw [parsePayload_stringify]
  dsimp only
  rw [if_neg (by
    simp only [Bool.or_eq_true, decide_eq_true_eq]
    push_neg
    exact ⟨⟨string_data_ne_nil hu, string_data_ne_nil ht⟩, string_data_ne_nil hs⟩)]
  rfl

theorem spec_C1_witness :
    verifyMobileToken wHmacA "k" (createMobileToken wHmacA "k" 0 wSession)
      = some wSession :=
  spec_C1_token_roundtrip wHmacA "k" 0 wSession
    (by
      intro m b hb
      rw [List.eq_of_mem_replicate hb]
      omega)
    (by decide) (by decide) (by decide)

theorem set_ne_of_ne (l : List Char) (i : Nat) (a : Char) (h : i < l.length)
    (hne : a ≠ l.get ⟨i, h⟩) : l.set i a ≠ l := by
  intro heq
  apply hne
  have h2 : i < (l.set i a).length := by simpa using h
  have hset : (l.set i a).getD i 'x' = a := by
    rw [List.getD_eq_getElem _ _ h2]
    exact List.getElem_set_self h2
  rw [heq, List.getD_eq_getElem _ _ h] at hset
  exact hset.symm

/-- Tamper rejection over an arbitrary dot-free payload: altering any single
character of `payload ++ "." ++ sig` (where `sig` is the base64url digest the
verifier recomputes) makes verification return `none`, provided the digest
has no second preimage of the payload among the split candidates. -/
theorem verify_tamper_general (hmac : String → List Char → List Nat)
    (secret : String) (P : List Char) (i : Nat) (c : Char)
    (hPdot : ('.' : Char) ∉ P)
    (hlen : ∀ m : List Char, (hmac secret m).length = 32)
    (hbytes : ∀ m : List Char, ∀ b ∈ hmac secret m, b < 256)
    (hnocoll : ∀ m : List Char, m ≠ P → hmac secret m ≠ hmac secret P)
    (hi : i < (P ++ '.' :: b64urlEncodeBytes (hmac secret P)).length)
    (hc : c ≠ (P ++ '.' :: b64urlEncodeBytes (hmac secret P)).get ⟨i, hi⟩) :
    verifyMobileToken hmac secret
      ((P ++ '.' :: b64urlEncodeBytes (hmac secret P)).set i c) = none := by
  have hSdot : ('.' : Char) ∉ b64urlEncodeBytes (hmac secret P) :=
    b64_encode_no_dot _ (hbytes P)
  have hSlen : (b64urlEncodeBytes (hmac secret P)).length = 43 := by
    rw [b64_encode_length, hlen]
  have hitok : i < P.length + 44 := by
    simp only [List.length_append, List.length_cons, hSlen] at hi
    omega
  rcases Nat.lt_trichotomy i P.length with hcase | hcase | hcase
  · -- a character of the payload substring is changed
    have hset : (P ++ '.' :: b64urlEncodeBytes (hmac secret P)).set i c
        = P.set i c ++ '.' :: b64urlEncodeBytes (hmac secret P) := by
      rw [List.set_append, if_pos hcase]
    rw [hset]
    unfold verifyMobileToken
    rw [splitLastDot_append hSdot]
    dsimp only
    rw [if_neg (by
      intro heq
      have hPC : P.set i c ≠ P := by
        refine set_ne_of_ne P i c hcase ?_
        intro hceq
        exact hc (by rw [hceq]; exact (List.getElem_append_left hcase).symm)
      exact hnocoll _ hPC (b64_encode_inj (hbytes _) (hbytes _) heq.symm))]
  · -- the separator dot itself is changed
    have hget : (P ++ '.' :: b64urlEncodeBytes (hmac secret P)).get ⟨i, hi⟩
        = '.' := by
      have hD : (P ++ '.' :: b64urlEncodeBytes (hmac secret P)).getD i 'x' = '.' := by
        rw [List.getD_append_right _ _ _ _ (le_of_eq hcase.symm),
          show i - P.length = 0 from by omega]
        rfl
      rw [List.getD_eq_getElem _ _ hi] at hD
      exact hD
    have hcdot : c ≠ '.' := fun hcd => hc (hcd.trans hget.symm)
    have hset : (P ++ '.' :: b64urlEncodeBytes (hmac secret P)).set i c
        = P ++ c :: b64urlEncodeBytes (hmac secret P) := by
      rw [List.set_append, if_neg (by omega),
        show i - P.length = 0 from by omega]
      rfl
    rw [hset]
    have hdotfree : ('.' : Char) ∉ P ++ c :: b64urlEncodeBytes (hmac secret P) := by
      intro hmem
      rcases List.mem_append.1 hmem with h | h
      · exact hPdot h
      · rcases List.mem_cons.1 h with h | h
        · exact hcdot h.symm
        · exact hSdot h
    unfold verifyMobileToken
    rw [splitLastDot_eq_none hdotfree]
  · -- a character of the signature substring is changed
    have hjlt : i - P.length - 1 < (b64urlEncodeBytes (hmac secret P)).length := by
      rw [hSlen]
      omega
    have hset : (P ++ '.' :: b64urlEncodeBytes (hmac secret P)).set i c
        = P ++ '.' :: (b64urlEncodeBytes (hmac secret P)).set (i - P.length - 1) c := by
      rw [List.set_append, if_neg (by omega),
        show i - P.length = (i - P.length - 1) + 1 from by omega]
      rfl
    rw [hset]
    by_cases hcdot : c = '.'
    · subst hcdot
      have hsplit2 : (b64urlEncodeBytes (hmac secret P)).set (i - P.length - 1) '.'
          = (b64urlEncodeBytes (hmac secret P)).take (i - P.length - 1) ++ '.' ::
              (b64urlEncodeBytes (hmac secret P)).drop (i - P.length - 1 + 1) := by
        rw [List.set_eq_take_append_cons_drop, if_pos hjlt]
      rw [hsplit2,
        show P ++ '.' :: ((b64urlEncodeBytes (hmac secret P)).take (i - P.length - 1)
            ++ '.' :: (b64urlEncodeBytes (hmac secret P)).drop (i - P.length - 1 + 1))
          = (P ++ '.' :: (b64urlEncodeBytes (hmac secret P)).take (i - P.length - 1))
            ++ '.' :: (b64urlEncodeBytes (hmac secret P)).drop (i - P.length - 1 + 1)
          from by simp]
      unfold verifyMobileToken
      rw [splitLastDot_append (fun hmem => hSdot (List.drop_subset _ _ hmem))]
      dsimp only
      rw [if_neg (by
        intro heq
        have hlen1 := congrArg List.length heq
        simp only [List.length_drop, hSlen, b64_encode_length, hlen] at hlen1
        omega)]
    · have hSdot' : ('.' : Char) ∉
          (b64urlEncodeBytes (hmac secret P)).set (i - P.length - 1) c := by
        intro hmem
        rcases List.mem_or_eq_of_mem_set hmem with h | h
        · exact hSdot h
        · exact hcdot h.symm
      unfold verifyMobileToken
      rw [splitLastDot_append hSdot']
      dsimp only
      rw [if_neg (by
        intro heq
        refine set_ne_of_ne (b64urlEncodeBytes (hmac secret P)) (i - P.length - 1) c
          hjlt ?_ heq
        intro hceq
        apply hc
        rw [hceq]
        have hD : (P ++ '.' :: b64urlEncodeBytes (hmac secret P)).getD i 'x'
            = (b64urlEncodeBytes (hmac secret P)).getD (i - P.length - 1) 'x' := by
          rw [List.getD_append_right _ _ _ _ (le_of_lt hcase),
            show i - P.length = (i - P.length - 1) + 1 from by omega]
          rfl
        rw [List.getD_eq_getElem _ _ hi, List.getD_eq_getElem _ _ hjlt] at hD
        exact hD.symm)]

/-- C2: changing any single character of an issued token — in the payload
substring, in the signature substring, or even the separator itself — makes
`verifyMobileToken` return `none`, assuming the digest is second-preimage
free at the signed payload (true of HMAC-SHA256 up to finding a collision). -/
theorem spec_C2_token_tamper_rejected (hmac : String → List Char → List Nat)
    (secret : String) (iat : Nat) (sd : SessionData) (i : Nat) (c : Char)
    (hlen : ∀ m : List Char, (hmac secret m).length = 32)
    (hbytes : ∀ m : List Char, ∀ b ∈ hmac secret m, b < 256)
    (hnocoll : ∀ m : List Char,
      m ≠ b64urlEncodeBytes (utf8Bytes (stringifyPayload sd iat)) →
      hmac secret m ≠ hmac secret (b64urlEncodeBytes (utf8Bytes (stringifyPayload sd iat))))
    (hi : i < (createMobileToken hmac secret iat sd).length)
    (hc : c ≠ (createMobileToken hmac secret iat sd).get ⟨i, hi⟩) :
    verifyMobileToken hmac secret ((createMobileToken hmac secret iat sd).set i c)
      = none :=
  verify_tamper_general hmac secret
    (b64urlEncodeBytes (utf8Bytes (stringifyPayload sd iat))) i c
    (b64_encode_no_dot _ (utf8Bytes_lt_256 _)) hlen hbytes hnocoll hi hc

set_option maxRecDepth 16384 in
theorem spec_C2_witness :
    verifyMobileToken wHmacB "k" ((createMobileToken wHmacB "k" 0 wSession).set 0 'Z')
      = none :=
  spec_C2_token_tamper_rejected wHmacB "k" 0 wSession 0 'Z'
    (by
      intro m
      unfold wHmacB
      split_ifs <;> simp)
    (by
      intro m b hb
      unfold wHmacB at hb
      split_ifs at hb
      · rw [List.eq_of_mem_replicate hb]
        omega
      · rcases List.mem_cons.1 hb with rfl | hb
        · omega
        · rw [List.eq_of_mem_replicate hb]
          omega)
    (by
      intro m hm
      have hm' : m ≠ wPayload := hm
      unfold wHmacB
      rw [if_neg hm',
        if_pos (show b64urlEncodeBytes (utf8Bytes (stringifyPayload wSession 0))
          = wPayload from rfl)]
      intro hfalse
      have hhead := congrArg (fun l => l.getD 0 7) hfalse
      rw [show (List.replicate 32 (0 : Nat)) = 0 :: List.replicate 31 0 from rfl] at hhead
      simp at hhead)
    (by decide)
    (by decide)

/-- C9: every failing shape of a bearer credential resolves silently to
`none`: a token without a dot, a signature mismatch, a payload that fails
base64url or UTF-8 decoding or JSON parsing, and a decoded payload missing
`u`, `t` or `s`; and a request whose bearer verification fails falls back to
the cookie, so with no cookie the resolution is `none` — no case throws
(every function involved is total). -/
theorem spec_C9_silent_bearer_failure (hmac : String → List Char → List Nat)
    (secret : String) (token : List Char) :
    (splitLastDot token = none → verifyMobileToken hmac secret token = none) ∧
    (∀ payload sig : List Char, splitLastDot token = some (payload, sig) →
      sig ≠ b64urlEncodeBytes (hmac secret payload) →
      verifyMobileToken hmac secret token = none) ∧
    (∀ payload sig : List Char, splitLastDot token = some (payload, sig) →
      b64urlDecodeChars payload = none →
      verifyMobileToken hmac secret token = none) ∧
    (∀ (payload sig : List Char) (bytes : List Nat),
      splitLastDot token = some (payload, sig) →
      b64urlDecodeChars payload = some bytes → utf8Decode bytes = none →
      verifyMobileToken hmac secret token = none) ∧
    (∀ (payload sig : List Char) (bytes : List Nat) (json : List Char),
      splitLastDot token = some (payload, sig) →
      b64urlDecodeChars payload = some bytes → utf8Decode bytes = some json →
      parsePayload json = none →
      verifyMobileToken hmac secret token = none) ∧
    (∀ (payload sig : List Char) (bytes : List Nat) (json : List Char)
      (data : TokenPayload),
      splitLastDot token = some (payload, sig) →
      b64urlDecodeChars payload = some bytes → utf8Decode bytes = some json →
      parsePayload json = some data →
      (data.u = none ∨ data.t = none ∨ data.s = none) →
      verifyMobileToken hmac secret token = none) ∧
    (∀ auth : String, "Bearer ".data.isPrefixOf auth.data = true →
      verifyMobileToken hmac secret (auth.data.drop 7) = none →
      getSession hmac secret (some auth) none = none) := by
  refine ⟨?_, ?_, ?_, ?_, ?_, ?_, ?_⟩
  · intro hsplit
    unfold verifyMobileToken
    rw [hsplit]
  · intro payload sig hsplit hsig
    unfold verifyMobileToken
    rw [hsplit]
    dsimp only
    rw [if_neg hsig]
  · intro payload sig hsplit hdec
    unfold verifyMobileToken
    rw [hsplit]
    dsimp only
    by_cases hs : sig = b64urlEncodeBytes (hmac secret payload)
    · rw [if_pos hs, hdec]
    · rw [if_neg hs]
  · intro payload sig bytes hsplit hdec hutf
    unfold verifyMobileToken
    rw [hsplit]
    dsimp only
    by_cases hs : sig = b64urlEncodeBytes (hmac secret payload)
    · rw [if_pos hs, hdec]
      dsimp only
      rw [hutf]
    · rw [if_neg hs]
  · intro payload sig bytes json hsplit hdec hutf hparse
    unfold verifyMobileToken
    rw [hsplit]
    dsimp only
    by_cases hs : sig = b64urlEncodeBytes (hmac secret payload)
    · rw [if_pos hs, hdec]
      dsimp only
      rw [hutf]
      dsimp only
      rw [hparse]
    · rw [if_neg hs]
  · intro payload sig bytes json data hsplit hdec hutf hparse hmiss
    unfold verifyMobileToken
    rw [hsplit]
    dsimp only
    by_cases hs : sig = b64urlEncodeBytes (hmac secret payload)
    · rw [if_pos hs, hdec]
      dsimp only
      rw [hutf]
      dsimp only
      rw [hparse]
      dsimp only
      cases hu : data.u with
      | none =>
        cases data.t <;> cases data.s <;> rfl
      | some u =>
        cases ht : data.t with
        | none => cases data.s <;> rfl
        | some t =>
          cases hs' : data.s with
          | none => rfl
          | some s =>
            rcases hmiss with h | h | h
            · rw [hu] at h; cases h
            · rw [ht] at h; cases h
            · rw [hs'] at h; cases h
    · rw [if_neg hs]
  · intro auth hstart hverify
    unfold getSession
    dsimp only
    rw [if_pos hstart, hverify]
    rfl

theorem spec_C9_witness :
    verifyMobileToken wHmacA "k" ("no-dot-token".data) = none ∧
    getSession wHmacA "k" (some "Bearer x") none = none :=
  ⟨(spec_C9_silent_bearer_failure wHmacA "k" ("no-dot-token".data)).1 (by decide),
   (spec_C9_silent_bearer_failure wHmacA "k" ("Bearer x".data.drop 7)).2.2.2.2.2.2
     "Bearer x" (by decide) (by decide)⟩

end SpinWatcher
